import Mathlib

/-!
# Delayed validator updates of the staking keeper

A shallow embedding of `x/staking/keeper/delay_updates.go` and theorems about it.

* The key-value store of the staking module is a function from byte-string keys to
  optional byte-string values (`none` is the `nil` slice that `store.Get` returns for an
  absent key).
* Everything else reachable through `sdk.Context` is a value of an arbitrary type `E`.
* The keeper methods and library functions that the file calls but does not define
  (`ApplyAndReturnValidatorSetUpdates`, `ConsensusFromDKGUpdates`, `RemoveMatureQueueItems`,
  `mustGetValidatorByConsAddr`, `stopProducingBlocks`, `PB2TM.PubKey`, `sdk.GetConsAddress`,
  the amino codec) are fields of `Keeper`: the theorems hold for every choice of them,
  under the stated hypotheses.
* The codec itself is not among the sources; where a statement is about what the codec
  returns, it is made for `specCodec`, a length-prefixed serialization modelled from the
  specification.
* Every call of a state-changing collaborator is recorded in a ghost call log, which the
  collaborators themselves cannot see; "does not invoke" is a statement about that log.
* A Go `panic` is the `Outcome.panic` result, carrying the state reached when it was raised.
-/

namespace DelayUpdates

/-! ## Data model -/

/-- Go `[]byte` contents: a list of byte values. -/
abbrev Bytes := List Nat

/-- The bytes of an ASCII string literal, as in the Go conversion `[]byte("...")`. -/
def bytesOf (s : String) : Bytes := s.toList.map Char.toNat

/-- Go `len` of a possibly-nil byte slice. -/
def len : Option Bytes → Nat
  | none => 0
  | some b => b.length

/-- Lower end of Go `int64`. -/
def MinInt64 : Int := -9223372036854775808

/-- Upper end of Go `int64`. -/
def MaxInt64 : Int := 9223372036854775807

/-- The values a Go `int64` can hold. -/
def IsInt64 (x : Int) : Prop := MinInt64 ≤ x ∧ x ≤ MaxInt64

instance (x : Int) : Decidable (IsInt64 x) := by unfold IsInt64; infer_instance

/-- Two's-complement wrap-around of an integer into the `int64` range. -/
def wrapInt64 (x : Int) : Int := (x + 2 ^ 63) % 2 ^ 64 - 2 ^ 63

/-- Go `a - b` on `int64` operands. -/
def subInt64 (a b : Int) : Int := wrapInt64 (a - b)

/-- The `abci.PubKey` wire format: a type tag and the key bytes. -/
structure PubKey where
  Type_ : String
  Data : Bytes
deriving DecidableEq, Repr

/-- The `abci.ValidatorUpdate` pair: public key and voting power (`int64`). -/
structure ValidatorUpdate where
  PubKey : PubKey
  Power : Int
deriving DecidableEq, Repr

/-- The `Entropy` part of `abci.Header`, with the one field that is read. -/
structure Entropy where
  NextAeonStart : Int
deriving DecidableEq, Repr

/-- The fields of `abci.Header` that are read. -/
structure Header where
  Height : Int
  Entropy : Entropy
deriving DecidableEq, Repr

/-- The state behind `sdk.Context`: the staking module store `ctx.KVStore(k.storeKey)` and
the rest of the application state. -/
structure World (E : Type) where
  store : Bytes → Option Bytes
  ext : E

/-- Calls of state-changing collaborators, as recorded in the ghost call log. -/
inductive Call (V : Type) where
  | ApplyAndReturnValidatorSetUpdates
  | ConsensusFromDKGUpdates (dkgUpdates : List ValidatorUpdate)
  | RemoveMatureQueueItems
  | stopProducingBlocks (validator : V)
deriving DecidableEq, Repr

/-- The state threaded through the operations: the world and the ghost call log. -/
structure Ctx (E V : Type) where
  world : World E
  calls : List (Call V)

/-- The two ways `checkJailedValidatorUpdates` panics: its own `panic(fmt.Sprintf("Error
converting public key %v in validator updates", val.PubKey))` and the panic of
`mustGetValidatorByConsAddr` for an address without a validator record. -/
inductive Panic where
  | convertingPublicKey (pubKey : PubKey)
  | validatorNotFound (consAddr : Bytes)
deriving DecidableEq, Repr

/-- Result of an operation that can panic; both results carry the state reached. -/
inductive Outcome (σ α : Type) where
  | ok (value : α) (state : σ)
  | panic (msg : Panic) (state : σ)

/-- The amino codec `k.cdc` at type `[]abci.ValidatorUpdate`. `UnmarshalBinaryLengthPrefixed bz
ptr` takes the bytes and the value behind the pointer before the call, and gives the value
behind the pointer after the call and whether an error was returned. -/
structure Codec where
  MustMarshalBinaryLengthPrefixed : List ValidatorUpdate → Bytes
  UnmarshalBinaryLengthPrefixed : Option Bytes → List ValidatorUpdate → List ValidatorUpdate × Bool

/-- The keeper: its two fields read by this file (`delayValidatorUpdates`, `cdc`) and the
functions this file calls whose code lies elsewhere. `P` is tendermint's `crypto.PubKey`,
`V` is `types.Validator`; `mustGetValidatorByConsAddr` gives `none` where the Go method
panics. -/
structure Keeper (E P V : Type) where
  delayValidatorUpdates : Bool
  cdc : Codec
  ApplyAndReturnValidatorSetUpdates : World E → List ValidatorUpdate × World E
  ConsensusFromDKGUpdates : World E → List ValidatorUpdate → List ValidatorUpdate × World E
  RemoveMatureQueueItems : World E → World E
  PB2TM_PubKey : PubKey → Option P
  GetConsAddress : P → Bytes
  mustGetValidatorByConsAddr : World E → Bytes → Option V
  stopProducingBlocks : World E → V → World E

/-! ## The store -/

variable {E P V : Type}

/-- The `store.Get(key)` operation. -/
def World.Get (w : World E) (key : Bytes) : Option Bytes := w.store key

/-- The `store.Set(key, value)` operation. -/
def World.Set (w : World E) (key value : Bytes) : World E :=
  ⟨fun k => if k = key then some value else w.store k, w.ext⟩

/-- The `store.Get(key)` operation on the threaded state. -/
def Ctx.Get (ctx : Ctx E V) (key : Bytes) : Option Bytes := ctx.world.Get key

/-- The `store.Set(key, value)` operation on the threaded state. -/
def Ctx.Set (ctx : Ctx E V) (key value : Bytes) : Ctx E V :=
  ⟨ctx.world.Set key value, ctx.calls⟩

/-- Run a state-changing collaborator and record the call. -/
def Ctx.invoke (ctx : Ctx E V) (c : Call V) (f : World E → World E) : Ctx E V :=
  ⟨f ctx.world, ctx.calls ++ [c]⟩

def computeValidatorUpdateKey : Bytes := bytesOf "computeValidatorUpdateKey"
def computeDKGValidatorUpdateKey : Bytes := bytesOf "computeDKGValidatorUpdateKey"
def validatorUpdatesKey : Bytes := bytesOf "validatorUpdatesKey"
def jailedValidatorUpdatesKey : Bytes := bytesOf "jailedValidatorUpdatesKey"

/-! ## The operations of `delay_updates.go` -/

/-- `CheckValidatorUpdates` determines whether block height is sufficiently close to the
next aeon start to trigger dkg and consensus validator changes. -/
def CheckValidatorUpdates (k : Keeper E P V) (ctx : Ctx E V) (header : Header) : Ctx E V :=
  let nextAeonStart := header.Entropy.NextAeonStart
  let ctx1 :=
    if !k.delayValidatorUpdates || header.Height == subInt64 nextAeonStart 1 then
      ctx.Set computeDKGValidatorUpdateKey [0]
    else ctx
  if !k.delayValidatorUpdates || header.Height == subInt64 nextAeonStart 2 then
    ctx1.Set computeValidatorUpdateKey [0]
  else ctx1

/-- The helper `setDKGValidatorUpdates`. -/
def setDKGValidatorUpdates (k : Keeper E P V) (ctx : Ctx E V) (update : List ValidatorUpdate) :
    Ctx E V :=
  ctx.Set validatorUpdatesKey (k.cdc.MustMarshalBinaryLengthPrefixed update)

/-- `DKGValidatorUpdates` returns dkg validator updates to EndBlock at block height set by
BeginBlock and saves them to store for retrieval by `ValidatorUpdates`. -/
def DKGValidatorUpdates (k : Keeper E P V) (ctx : Ctx E V) : List ValidatorUpdate × Ctx E V :=
  if len (ctx.Get computeDKGValidatorUpdateKey) == 0 then
    ([], ctx)
  else
    let ctx1 := ctx.Set computeDKGValidatorUpdateKey []
    let updates := (k.ApplyAndReturnValidatorSetUpdates ctx1.world).1
    let ctx2 := ctx1.invoke Call.ApplyAndReturnValidatorSetUpdates
      (fun w => (k.ApplyAndReturnValidatorSetUpdates w).2)
    (updates, setDKGValidatorUpdates k ctx2 updates)

/-- The helper `getComputeValUpdateKey`. -/
def getComputeValUpdateKey (ctx : Ctx E V) : Option Bytes :=
  ctx.Get computeValidatorUpdateKey

/-- The helper `getDKGValidatorUpdates`: the error of the codec is dropped, and the promote
flag is cleared. -/
def getDKGValidatorUpdates (k : Keeper E P V) (ctx : Ctx E V) : List ValidatorUpdate × Ctx E V :=
  let updateBytes := ctx.Get validatorUpdatesKey
  let updates := (k.cdc.UnmarshalBinaryLengthPrefixed updateBytes []).1
  (updates, ctx.Set computeValidatorUpdateKey [])

/-- The helper `getJailedValidatorUpdates`: the error of the codec is dropped. -/
def getJailedValidatorUpdates (k : Keeper E P V) (ctx : Ctx E V) : List ValidatorUpdate :=
  let updateBytes := ctx.Get jailedValidatorUpdatesKey
  (k.cdc.UnmarshalBinaryLengthPrefixed updateBytes []).1

/-- The helper `setJailedValidatorUpdates`. -/
def setJailedValidatorUpdates (k : Keeper E P V) (ctx : Ctx E V)
    (updates : List ValidatorUpdate) : Ctx E V :=
  ctx.Set jailedValidatorUpdatesKey (k.cdc.MustMarshalBinaryLengthPrefixed updates)

/-- The `for _, val := range updates` loop of `checkJailedValidatorUpdates`: turn off
producing blocks for jailed validators. -/
def stopJailedLoop (k : Keeper E P V) : List ValidatorUpdate → Ctx E V → Outcome (Ctx E V) Unit
  | [], ctx => Outcome.ok () ctx
  | val :: rest, ctx =>
    match k.PB2TM_PubKey val.PubKey with
    | none => Outcome.panic (Panic.convertingPublicKey val.PubKey) ctx
    | some pubKey =>
      match k.mustGetValidatorByConsAddr ctx.world (k.GetConsAddress pubKey) with
      | none => Outcome.panic (Panic.validatorNotFound (k.GetConsAddress pubKey)) ctx
      | some validator =>
        stopJailedLoop k rest
          (ctx.invoke (Call.stopProducingBlocks validator)
            (fun w => k.stopProducingBlocks w validator))

/-- `checkJailedValidatorUpdates`: get validators which have been jailed since last block
and then reset the stored updates. -/
def checkJailedValidatorUpdates (k : Keeper E P V) (ctx : Ctx E V) :
    Outcome (Ctx E V) (List ValidatorUpdate) :=
  let updates := getJailedValidatorUpdates k ctx
  let ctx1 := setJailedValidatorUpdates k ctx []
  match stopJailedLoop k updates ctx1 with
  | Outcome.panic msg ctx2 => Outcome.panic msg ctx2
  | Outcome.ok _ ctx2 => Outcome.ok updates ctx2

/-- `ValidatorUpdates` retrieves last saved updates from store when non-trivial update is
triggered by BeginBlock. -/
def ValidatorUpdates (k : Keeper E P V) (ctx : Ctx E V) :
    Outcome (Ctx E V) (List ValidatorUpdate) :=
  match checkJailedValidatorUpdates k ctx with
  | Outcome.panic msg ctx1 => Outcome.panic msg ctx1
  | Outcome.ok jailedUpdates ctx1 =>
    let r :=
      if len (getComputeValUpdateKey ctx1) != 0 then
        let dkg := getDKGValidatorUpdates k ctx1
        ((k.ConsensusFromDKGUpdates dkg.2.world dkg.1).1,
          dkg.2.invoke (Call.ConsensusFromDKGUpdates dkg.1)
            (fun w => (k.ConsensusFromDKGUpdates w dkg.1).2))
      else (jailedUpdates, ctx1)
    Outcome.ok r.1 (r.2.invoke Call.RemoveMatureQueueItems k.RemoveMatureQueueItems)

/-! ## Vocabulary of the statements -/

/-- The state carried by a result, whether it returned or panicked. -/
def Outcome.state {σ α : Type} : Outcome σ α → σ
  | Outcome.ok _ s => s
  | Outcome.panic _ s => s

/-- The value a result returned, `none` for a panic. -/
def Outcome.returned {σ α : Type} : Outcome σ α → Option α
  | Outcome.ok v _ => some v
  | Outcome.panic _ _ => none

/-- A flag is set when its key holds a non-empty value, the test `len(store.Get(key)) != 0`
of the source. -/
def flagSet (ctx : Ctx E V) (key : Bytes) : Bool := len (ctx.Get key) != 0

/-- The four keys of this file. -/
def coreKeys : List Bytes :=
  [computeValidatorUpdateKey, computeDKGValidatorUpdateKey, validatorUpdatesKey,
    jailedValidatorUpdatesKey]

/-- None of the state-changing collaborators writes `key`. -/
structure Keeper.Preserves (k : Keeper E P V) (key : Bytes) : Prop where
  apply : ∀ w, (k.ApplyAndReturnValidatorSetUpdates w).2.store key = w.store key
  consensus : ∀ w us, (k.ConsensusFromDKGUpdates w us).2.store key = w.store key
  remove : ∀ w, (k.RemoveMatureQueueItems w).store key = w.store key
  stop : ∀ w v, (k.stopProducingBlocks w v).store key = w.store key

/-- The four keys are exclusively owned by this file: no collaborator writes them. -/
def Keeper.KeysOwned (k : Keeper E P V) : Prop := ∀ key ∈ coreKeys, k.Preserves key

/-- The codec law used here: the serialization of the empty sequence deserializes to the
empty sequence. -/
def Codec.RoundTripsEmpty (cdc : Codec) : Prop :=
  (cdc.UnmarshalBinaryLengthPrefixed (some (cdc.MustMarshalBinaryLengthPrefixed [])) []).1 = []

/-- The validator record a jailed entry resolves to in world `w`: its public key is
converted, and the validator is looked up by the derived consensus address. -/
def resolve (k : Keeper E P V) (w : World E) (val : ValidatorUpdate) : Option V :=
  match k.PB2TM_PubKey val.PubKey with
  | none => none
  | some pubKey => k.mustGetValidatorByConsAddr w (k.GetConsAddress pubKey)

/-- The panic raised for an entry that does not resolve: the conversion error when its
public key does not convert, the missing validator otherwise. -/
def panicFor (k : Keeper E P V) (val : ValidatorUpdate) : Panic :=
  match k.PB2TM_PubKey val.PubKey with
  | none => Panic.convertingPublicKey val.PubKey
  | some pubKey => Panic.validatorNotFound (k.GetConsAddress pubKey)

/-- The world after `stopProducingBlocks` has been applied to the validators `vs` in order. -/
def stopAll (k : Keeper E P V) (w : World E) (vs : List V) : World E :=
  vs.foldl k.stopProducingBlocks w

/-- Resolve the entries in order, each one in the world left by stopping the validators of
the entries before it; `none` when some entry does not resolve. -/
def resolveAll (k : Keeper E P V) : World E → List ValidatorUpdate → Option (List V)
  | _, [] => some []
  | w, val :: rest =>
    match resolve k w val with
    | none => none
    | some v =>
      match resolveAll k (k.stopProducingBlocks w v) rest with
      | none => none
      | some vs => some (v :: vs)

/-- The codec round-trips the sequence `x`: the serialization of `x` deserializes, into an
empty target, to `x`. -/
def Codec.RoundTrips (cdc : Codec) (x : List ValidatorUpdate) : Prop :=
  (cdc.UnmarshalBinaryLengthPrefixed (some (cdc.MustMarshalBinaryLengthPrefixed x)) []).1 = x

/-- The codec leaves an empty target empty when it is given the `nil` slice, which is what
`store.Get` returns for an absent key. -/
def Codec.KeepsEmptyOnNil (cdc : Codec) : Prop :=
  (cdc.UnmarshalBinaryLengthPrefixed none []).1 = []

/-- The two outputs of the height gate of the specification. -/
structure GateFlags where
  raiseComputeDKG : Bool
  raisePromote : Bool
deriving DecidableEq, Repr

/-- The height gate in the words of the specification, `evaluate(height, nextAeonStart,
delayEnabled)`, over the unbounded integers: both outputs are true when the delay is
disabled; otherwise `raiseComputeDKG = (height == nextAeonStart - 1)` and
`raisePromote = (height == nextAeonStart - 2)`. -/
def evaluateSpec (height nextAeonStart : Int) (delayEnabled : Bool) : GateFlags :=
  if delayEnabled then
    ⟨height == nextAeonStart - 1, height == nextAeonStart - 2⟩
  else ⟨true, true⟩

/-- Writing the marker for each output of the gate that is true, compute-DKG first. -/
def raiseFlags (g : GateFlags) (ctx : Ctx E V) : Ctx E V :=
  let ctx1 := if g.raiseComputeDKG then ctx.Set computeDKGValidatorUpdateKey [0] else ctx
  if g.raisePromote then ctx1.Set computeValidatorUpdateKey [0] else ctx1

/-! ## The codec, modelled from the specification -/

/-- Modelled from the spec: part of the codec `k.cdc`, whose code (go-amino) is not among the
sources. The unsigned varint of `n`: seven bits to a byte, low bits first, the high bit set
on every byte but the last; the first argument bounds the number of bytes after the
first. -/
def putUvarintAux : Nat → Nat → Bytes
  | 0, n => [n % 128]
  | fuel + 1, n =>
    if n < 128 then [n] else (n % 128 + 128) :: putUvarintAux fuel (n / 128)

/-- Modelled from the spec: part of the codec `k.cdc`. The unsigned varint of `n`. -/
def putUvarint (n : Nat) : Bytes := putUvarintAux n n

/-- Modelled from the spec: part of the codec `k.cdc`. Read one unsigned varint from the
front of the bytes. -/
def getUvarint : Bytes → Option (Nat × Bytes)
  | [] => none
  | b :: rest =>
    if b < 128 then some (b, rest)
    else
      match getUvarint rest with
      | none => none
      | some (n, r) => some (b - 128 + 128 * n, r)

/-- Modelled from the spec: part of the codec `k.cdc`. Read `n` unsigned varints. -/
def getUvarints : Nat → Bytes → Option (List Nat × Bytes)
  | 0, bz => some ([], bz)
  | n + 1, bz =>
    match getUvarint bz with
    | none => none
    | some (v, r) =>
      match getUvarints n r with
      | none => none
      | some (vs, r') => some (v :: vs, r')

/-- Modelled from the spec: part of the codec `k.cdc`. A string: the number of its
characters, then the code of each character, all as unsigned varints. -/
def putString (t : String) : Bytes :=
  putUvarint t.toList.length ++ ((t.toList.map Char.toNat).map putUvarint).flatten

/-- Modelled from the spec: part of the codec `k.cdc`. Read a string. -/
def getString (bz : Bytes) : Option (String × Bytes) :=
  match getUvarint bz with
  | none => none
  | some (n, r) =>
    match getUvarints n r with
    | none => none
    | some (codes, r') => some (String.mk (codes.map Char.ofNat), r')

/-- Modelled from the spec: part of the codec `k.cdc`. A byte string: its length as an
unsigned varint, then its bytes. -/
def putBytes (d : Bytes) : Bytes := putUvarint d.length ++ d

/-- Modelled from the spec: part of the codec `k.cdc`. Read a byte string. -/
def getBytes (bz : Bytes) : Option (Bytes × Bytes) :=
  match getUvarint bz with
  | none => none
  | some (m, r) => if r.length < m then none else some (r.take m, r.drop m)

/-- Modelled from the spec: part of the codec `k.cdc`. An integer: a sign byte, then its
absolute value as an unsigned varint. -/
def putInt (p : Int) : Bytes := (if p < 0 then 1 else 0) :: putUvarint p.natAbs

/-- Modelled from the spec: part of the codec `k.cdc`. Read an integer. -/
def getInt (bz : Bytes) : Option (Int × Bytes) :=
  match bz with
  | [] => none
  | s :: r =>
    match getUvarint r with
    | none => none
    | some (m, r') => some (if s = 1 then -(m : Int) else (m : Int), r')

/-- Modelled from the spec: part of the codec `k.cdc`. One update: the type of the key, the
bytes of the key, the power. -/
def encodeUpdate (u : ValidatorUpdate) : Bytes :=
  putString u.PubKey.Type_ ++ (putBytes u.PubKey.Data ++ putInt u.Power)

/-- Modelled from the spec: part of the codec `k.cdc`. Read one update from the front of
the bytes. -/
def decodeUpdate (bz : Bytes) : Option (ValidatorUpdate × Bytes) :=
  match getString bz with
  | none => none
  | some (t, r1) =>
    match getBytes r1 with
    | none => none
    | some (d, r2) =>
      match getInt r2 with
      | none => none
      | some (p, r3) => some (⟨⟨t, d⟩, p⟩, r3)

/-- Modelled from the spec: part of the codec `k.cdc`. Read `n` updates; the bytes must be
used up. -/
def decodeUpdates : Nat → Bytes → Option (List ValidatorUpdate)
  | 0, [] => some []
  | 0, _ :: _ => none
  | n + 1, bz =>
    match decodeUpdate bz with
    | none => none
    | some (u, r) =>
      match decodeUpdates n r with
      | none => none
      | some us => some (u :: us)

/-- Modelled from the spec: the codec `k.cdc` (`MustMarshalBinaryLengthPrefixed` and
`UnmarshalBinaryLengthPrefixed` of go-amino at type `[]abci.ValidatorUpdate`), whose code is
not among the sources. The specification asks for a "length-prefixed serialization of a
sequence of ValidatorUpdate" that "must satisfy `deserialize(serialize(x)) == x`, including
for the empty sequence": the serialization is the byte length of the body followed by the
body, which is the number of updates followed by the updates, each field with its own length
in front; deserialization of bytes that are absent, empty or malformed is an error, which
leaves the target as it was. -/
def specCodec : Codec where
  MustMarshalBinaryLengthPrefixed := fun us =>
    putBytes (putUvarint us.length ++ (us.map encodeUpdate).flatten)
  UnmarshalBinaryLengthPrefixed := fun bz target =>
    match bz with
    | none => (target, true)
    | some bs =>
      match getBytes bs with
      | some (body, []) =>
        match getUvarint body with
        | none => (target, true)
        | some (n, r) =>
          match decodeUpdates n r with
          | none => (target, true)
          | some us => (us, false)
      | _ => (target, true)

/-! ## A concrete keeper, for instances of the theorems -/

/-- The state with an empty store and an empty call log. -/
def emptyCtx : Ctx (List Nat) Nat := ⟨⟨fun _ => none, []⟩, []⟩

/-- The public key of validator `n` of the demo keeper: an ed25519 key of 32 bytes, the
first of which is `n`. -/
def demoPk (n : Nat) : PubKey := ⟨"ed25519", n :: List.replicate 31 0⟩

/-- A keeper over a world whose extra state lists the validators stopped so far. As in
tendermint, the key conversion accepts ed25519 keys of 32 bytes and secp256k1 keys of 33
bytes and nothing else; the consensus address is the first 20 bytes of the key (standing for
the truncated hash); validators are numbers, and the three on record are 0, 1 and 2, at the
addresses of `demoPk 0`, `demoPk 1` and `demoPk 2`. Committee selection returns
`U = [(pkA,10),(pkB,0)]`, promotion drops the removals, and the collaborators do not write
the store. -/
def demoKeeper (delay : Bool) : Keeper (List Nat) Bytes Nat where
  delayValidatorUpdates := delay
  cdc := specCodec
  ApplyAndReturnValidatorSetUpdates := fun w => ([⟨demoPk 0, 10⟩, ⟨demoPk 1, 0⟩], w)
  ConsensusFromDKGUpdates := fun w us => (us.filter (fun u => u.Power != 0), w)
  RemoveMatureQueueItems := fun w => w
  PB2TM_PubKey := fun pk =>
    if pk.Type_ = "ed25519" then
      if pk.Data.length = 32 then some pk.Data else none
    else if pk.Type_ = "secp256k1" then
      if pk.Data.length = 33 then some pk.Data else none
    else none
  GetConsAddress := fun p => p.take 20
  mustGetValidatorByConsAddr := fun _ addr =>
    match addr with
    | n :: rest => if n < 3 ∧ rest = List.replicate 19 0 then some n else none
    | [] => none
  stopProducingBlocks := fun w v => ⟨w.store, w.ext ++ [v]⟩

/-- The state whose store holds the given flags, committee payload and jailed entries. -/
def demoCtx (computeDKG promote : Bool) (committee jailed : List ValidatorUpdate) :
    Ctx (List Nat) Nat :=
  let c0 := emptyCtx.Set validatorUpdatesKey (specCodec.MustMarshalBinaryLengthPrefixed committee)
  let c1 := c0.Set jailedValidatorUpdatesKey (specCodec.MustMarshalBinaryLengthPrefixed jailed)
  let c2 := if computeDKG then c1.Set computeDKGValidatorUpdateKey [0] else c1
  if promote then c2.Set computeValidatorUpdateKey [0] else c2

/-! ## Lemmas on the store, the keys and `int64` -/

theorem Ctx.Get_Set (ctx : Ctx E V) (key value key' : Bytes) :
    (ctx.Set key value).Get key' = if key' = key then some value else ctx.Get key' := rfl

theorem Ctx.Get_Set_same (ctx : Ctx E V) (key value : Bytes) :
    (ctx.Set key value).Get key = some value := by
  simp [Ctx.Get_Set]

theorem Ctx.Get_Set_other (ctx : Ctx E V) (key value key' : Bytes) (h : key' ≠ key) :
    (ctx.Set key value).Get key' = ctx.Get key' := by
  simp [Ctx.Get_Set, h]

theorem Ctx.calls_Set (ctx : Ctx E V) (key value : Bytes) :
    (ctx.Set key value).calls = ctx.calls := rfl

theorem Ctx.Get_invoke (ctx : Ctx E V) (c : Call V) (f : World E → World E) (key : Bytes) :
    (ctx.invoke c f).Get key = (f ctx.world).store key := rfl

theorem Ctx.calls_invoke (ctx : Ctx E V) (c : Call V) (f : World E → World E) :
    (ctx.invoke c f).calls = ctx.calls ++ [c] := rfl

theorem computeDKG_ne_compute : computeDKGValidatorUpdateKey ≠ computeValidatorUpdateKey := by
  decide

theorem updates_ne_compute : validatorUpdatesKey ≠ computeValidatorUpdateKey := by decide

theorem jailed_ne_compute : jailedValidatorUpdatesKey ≠ computeValidatorUpdateKey := by decide

theorem updates_ne_computeDKG : validatorUpdatesKey ≠ computeDKGValidatorUpdateKey := by decide

theorem jailed_ne_computeDKG : jailedValidatorUpdatesKey ≠ computeDKGValidatorUpdateKey := by
  decide

theorem jailed_ne_updates : jailedValidatorUpdatesKey ≠ validatorUpdatesKey := by decide

theorem compute_mem_coreKeys : computeValidatorUpdateKey ∈ coreKeys := by simp [coreKeys]

theorem computeDKG_mem_coreKeys : computeDKGValidatorUpdateKey ∈ coreKeys := by simp [coreKeys]

theorem updates_mem_coreKeys : validatorUpdatesKey ∈ coreKeys := by simp [coreKeys]

theorem jailed_mem_coreKeys : jailedValidatorUpdatesKey ∈ coreKeys := by simp [coreKeys]

theorem flagSet_eq_true_iff (ctx : Ctx E V) (key : Bytes) :
    flagSet ctx key = true ↔ len (ctx.Get key) ≠ 0 := by
  simp [flagSet]

theorem flagSet_eq_false_iff (ctx : Ctx E V) (key : Bytes) :
    flagSet ctx key = false ↔ len (ctx.Get key) = 0 := by
  simp [flagSet]

/-- Wrapping does nothing to a value that is in range. -/
theorem wrapInt64_of_IsInt64 (x : Int) (h : IsInt64 x) : wrapInt64 x = x := by
  unfold IsInt64 MinInt64 MaxInt64 at h
  unfold wrapInt64
  norm_num
  omega

/-- Subtraction that does not leave the range is the subtraction of the integers. -/
theorem subInt64_eq (a b : Int) (h : IsInt64 (a - b)) : subInt64 a b = a - b :=
  wrapInt64_of_IsInt64 _ h

/-- The collaborators of the demo keeper write no key of the store. -/
theorem demoKeeper_Preserves (delay : Bool) (key : Bytes) : (demoKeeper delay).Preserves key :=
  ⟨fun _ => rfl, fun _ _ => rfl, fun _ => rfl, fun _ _ => rfl⟩

theorem demoKeeper_KeysOwned (delay : Bool) : (demoKeeper delay).KeysOwned :=
  fun key _ => demoKeeper_Preserves delay key

theorem specCodec_RoundTripsEmpty : specCodec.RoundTripsEmpty := by
  unfold Codec.RoundTripsEmpty
  rfl

/-! ## The height gate: `CheckValidatorUpdates` -/

/-- Claim C1, as the code has it: in delayed mode, for `int64` values of `nextAeonStart`,
`CheckValidatorUpdates` writes the marker `[0]` under `computeDKGValidatorUpdateKey` exactly
when `height = nextAeonStart - 1`, provided `nextAeonStart - 1` does not overflow, and under
`computeValidatorUpdateKey` exactly when `height = nextAeonStart - 2`, provided
`nextAeonStart - 2` does not overflow; a flag that is not raised keeps the value it had. -/
theorem CheckValidatorUpdates_delayed (k : Keeper E P V) (ctx : Ctx E V) (header : Header)
    (hdelay : k.delayValidatorUpdates = true) (ha : IsInt64 header.Entropy.NextAeonStart) :
    (MinInt64 + 1 ≤ header.Entropy.NextAeonStart →
      (CheckValidatorUpdates k ctx header).Get computeDKGValidatorUpdateKey =
        if header.Height = header.Entropy.NextAeonStart - 1 then some [0]
        else ctx.Get computeDKGValidatorUpdateKey) ∧
    (MinInt64 + 2 ≤ header.Entropy.NextAeonStart →
      (CheckValidatorUpdates k ctx header).Get computeValidatorUpdateKey =
        if header.Height = header.Entropy.NextAeonStart - 2 then some [0]
        else ctx.Get computeValidatorUpdateKey) := by
  have hne := computeDKG_ne_compute
  unfold IsInt64 at ha
  constructor
  · intro hlo
    have h1 : subInt64 header.Entropy.NextAeonStart 1 = header.Entropy.NextAeonStart - 1 :=
      subInt64_eq _ _ ⟨by omega, by omega⟩
    simp only [CheckValidatorUpdates, hdelay, h1, Bool.not_true, Bool.false_or, beq_iff_eq]
    split <;> split <;> simp_all [Ctx.Get_Set]
  · intro hlo
    have h2 : subInt64 header.Entropy.NextAeonStart 2 = header.Entropy.NextAeonStart - 2 :=
      subInt64_eq _ _ ⟨by omega, by omega⟩
    simp only [CheckValidatorUpdates, hdelay, h2, Bool.not_true, Bool.false_or, beq_iff_eq]
    split <;> split <;> simp_all [Ctx.Get_Set, Ne.symm hne]

/-- An instance of `CheckValidatorUpdates_delayed`: scenarios A and B of the specification,
`nextAeonStart = 1000` at heights 999 and 998, from the empty store. -/
theorem CheckValidatorUpdates_delayed_witness :
    ((CheckValidatorUpdates (demoKeeper true) emptyCtx ⟨999, ⟨1000⟩⟩).Get
        computeDKGValidatorUpdateKey = some [0] ∧
      (CheckValidatorUpdates (demoKeeper true) emptyCtx ⟨999, ⟨1000⟩⟩).Get
        computeValidatorUpdateKey = none) ∧
    ((CheckValidatorUpdates (demoKeeper true) emptyCtx ⟨998, ⟨1000⟩⟩).Get
        computeDKGValidatorUpdateKey = none ∧
      (CheckValidatorUpdates (demoKeeper true) emptyCtx ⟨998, ⟨1000⟩⟩).Get
        computeValidatorUpdateKey = some [0]) :=
  ⟨⟨(CheckValidatorUpdates_delayed (demoKeeper true) emptyCtx ⟨999, ⟨1000⟩⟩ rfl
        (by decide)).1 (by decide),
      (CheckValidatorUpdates_delayed (demoKeeper true) emptyCtx ⟨999, ⟨1000⟩⟩ rfl
        (by decide)).2 (by decide)⟩,
    ⟨(CheckValidatorUpdates_delayed (demoKeeper true) emptyCtx ⟨998, ⟨1000⟩⟩ rfl
        (by decide)).1 (by decide),
      (CheckValidatorUpdates_delayed (demoKeeper true) emptyCtx ⟨998, ⟨1000⟩⟩ rfl
        (by decide)).2 (by decide)⟩⟩

/-- Claim C1 fails where the subtraction overflows: with `nextAeonStart = MinInt64` and
`height = MaxInt64`, both `int64` values, `height` is not `nextAeonStart - 1`, yet the
compute-DKG flag, clear before, is raised, since the Go subtraction wraps around. -/
theorem CheckValidatorUpdates_delayed_overflow :
    (demoKeeper true).delayValidatorUpdates = true ∧
    IsInt64 MaxInt64 ∧ IsInt64 MinInt64 ∧ MaxInt64 ≠ MinInt64 - 1 ∧
    emptyCtx.Get computeDKGValidatorUpdateKey = none ∧
    (CheckValidatorUpdates (demoKeeper true) emptyCtx ⟨MaxInt64, ⟨MinInt64⟩⟩).Get
      computeDKGValidatorUpdateKey = some [0] := by
  refine ⟨rfl, by decide, by decide, by decide, rfl, ?_⟩
  decide

/-- Claim C2: with `delayValidatorUpdates` disabled, at every height and for every
`nextAeonStart`, `CheckValidatorUpdates` leaves the marker `[0]`, a non-empty value, under
both flag keys. -/
theorem CheckValidatorUpdates_eager (k : Keeper E P V) (ctx : Ctx E V) (header : Header)
    (hdelay : k.delayValidatorUpdates = false) :
    (CheckValidatorUpdates k ctx header).Get computeDKGValidatorUpdateKey = some [0] ∧
    (CheckValidatorUpdates k ctx header).Get computeValidatorUpdateKey = some [0] ∧
    flagSet (CheckValidatorUpdates k ctx header) computeDKGValidatorUpdateKey = true ∧
    flagSet (CheckValidatorUpdates k ctx header) computeValidatorUpdateKey = true := by
  have hne := computeDKG_ne_compute
  have h : CheckValidatorUpdates k ctx header =
      (ctx.Set computeDKGValidatorUpdateKey [0]).Set computeValidatorUpdateKey [0] := by
    simp [CheckValidatorUpdates, hdelay]
  rw [h]
  simp [flagSet, Ctx.Get_Set, hne, len]

/-- An instance of `CheckValidatorUpdates_eager`: scenario C, at height 5 with
`nextAeonStart = 1000`. -/
theorem CheckValidatorUpdates_eager_witness :
    (demoKeeper false).delayValidatorUpdates = false ∧
    (CheckValidatorUpdates (demoKeeper false) emptyCtx ⟨5, ⟨1000⟩⟩).Get
      computeDKGValidatorUpdateKey = some [0] ∧
    (CheckValidatorUpdates (demoKeeper false) emptyCtx ⟨5, ⟨1000⟩⟩).Get
      computeValidatorUpdateKey = some [0] :=
  ⟨rfl, (CheckValidatorUpdates_eager (demoKeeper false) emptyCtx ⟨5, ⟨1000⟩⟩ rfl).1,
    (CheckValidatorUpdates_eager (demoKeeper false) emptyCtx ⟨5, ⟨1000⟩⟩ rfl).2.1⟩

/-! ## Committee computation: `DKGValidatorUpdates` -/

/-- Claim C3: when the compute-DKG flag is set and committee selection, run on the state
with the flag already cleared, returns `U`, then `DKGValidatorUpdates` returns `U`, the
serialization of `U` is stored under `validatorUpdatesKey`, the compute-DKG flag holds the
empty value, and committee selection was invoked once; committee selection is assumed not to
write the flag key, which this file owns. -/
theorem DKGValidatorUpdates_flagged (k : Keeper E P V) (ctx : Ctx E V)
    (U : List ValidatorUpdate) (w' : World E)
    (hown : k.Preserves computeDKGValidatorUpdateKey)
    (hflag : flagSet ctx computeDKGValidatorUpdateKey = true)
    (hU : k.ApplyAndReturnValidatorSetUpdates (ctx.Set computeDKGValidatorUpdateKey []).world
      = (U, w')) :
    (DKGValidatorUpdates k ctx).1 = U ∧
    (DKGValidatorUpdates k ctx).2.Get validatorUpdatesKey
      = some (k.cdc.MustMarshalBinaryLengthPrefixed U) ∧
    (DKGValidatorUpdates k ctx).2.Get computeDKGValidatorUpdateKey = some [] ∧
    flagSet (DKGValidatorUpdates k ctx).2 computeDKGValidatorUpdateKey = false ∧
    (DKGValidatorUpdates k ctx).2.calls = ctx.calls ++ [Call.ApplyAndReturnValidatorSetUpdates]
    := by
  have hlen : ¬ len (ctx.Get computeDKGValidatorUpdateKey) = 0 :=
    (flagSet_eq_true_iff _ _).1 hflag
  have hdef : DKGValidatorUpdates k ctx =
      (U, setDKGValidatorUpdates k
        ((ctx.Set computeDKGValidatorUpdateKey []).invoke Call.ApplyAndReturnValidatorSetUpdates
          (fun w => (k.ApplyAndReturnValidatorSetUpdates w).2)) U) := by
    simp [DKGValidatorUpdates, hlen, hU]
  have hkeep : (DKGValidatorUpdates k ctx).2.Get computeDKGValidatorUpdateKey = some [] := by
    rw [hdef]
    show (Ctx.Set _ validatorUpdatesKey _).Get computeDKGValidatorUpdateKey = some []
    rw [Ctx.Get_Set_other _ _ _ _ (Ne.symm updates_ne_computeDKG), Ctx.Get_invoke, hown.apply]
    exact Ctx.Get_Set_same ctx _ _
  refine ⟨by rw [hdef], ?_, hkeep, ?_, by rw [hdef]; rfl⟩
  · rw [hdef]
    exact Ctx.Get_Set_same _ _ _
  · rw [flagSet_eq_false_iff, hkeep]
    rfl

/-- An instance of `DKGValidatorUpdates_flagged`: scenario D, the committee
`U = [(pkA,10),(pkB,0)]` from a store that holds only the compute-DKG flag. -/
theorem DKGValidatorUpdates_flagged_witness :
    flagSet (demoCtx true false [] []) computeDKGValidatorUpdateKey = true ∧
    (DKGValidatorUpdates (demoKeeper true) (demoCtx true false [] [])).1
      = [⟨demoPk 0, 10⟩, ⟨demoPk 1, 0⟩] ∧
    (DKGValidatorUpdates (demoKeeper true) (demoCtx true false [] [])).2.Get validatorUpdatesKey
      = some (specCodec.MustMarshalBinaryLengthPrefixed [⟨demoPk 0, 10⟩, ⟨demoPk 1, 0⟩]) ∧
    (DKGValidatorUpdates (demoKeeper true) (demoCtx true false [] [])).2.Get
      computeDKGValidatorUpdateKey = some [] :=
  have h := DKGValidatorUpdates_flagged (demoKeeper true) (demoCtx true false [] [])
    [⟨demoPk 0, 10⟩, ⟨demoPk 1, 0⟩] _ (demoKeeper_Preserves true _) (by decide) rfl
  ⟨by decide, h.1, h.2.1, h.2.2.1⟩

/-- Claim C9: when the compute-DKG flag is not set (key absent, or present with the empty
value), `DKGValidatorUpdates` returns the empty sequence and the state it was given: no key
of the store changes, the committee payload included, and no collaborator is invoked. -/
theorem DKGValidatorUpdates_unflagged (k : Keeper E P V) (ctx : Ctx E V)
    (hflag : ctx.Get computeDKGValidatorUpdateKey = none ∨
      ctx.Get computeDKGValidatorUpdateKey = some []) :
    DKGValidatorUpdates k ctx = ([], ctx) := by
  have hlen : len (ctx.Get computeDKGValidatorUpdateKey) = 0 := by
    rcases hflag with h | h <;> rw [h] <;> rfl
  simp [DKGValidatorUpdates, hlen]

/-- An instance of `DKGValidatorUpdates_unflagged`: a store whose committee payload was
written earlier and whose compute-DKG flag is clear. -/
theorem DKGValidatorUpdates_unflagged_witness :
    (demoCtx false true [⟨demoPk 2, 7⟩] []).Get computeDKGValidatorUpdateKey = none ∧
    DKGValidatorUpdates (demoKeeper true) (demoCtx false true [⟨demoPk 2, 7⟩] [])
      = ([], demoCtx false true [⟨demoPk 2, 7⟩] []) :=
  ⟨by decide, DKGValidatorUpdates_unflagged (demoKeeper true) _ (Or.inl (by decide))⟩

/-! ## The jailed-validator loop -/

/-- Stopping validators leaves untouched every key that `stopProducingBlocks` does not
write. -/
theorem stopAll_store (k : Keeper E P V) (key : Bytes)
    (hstop : ∀ w v, (k.stopProducingBlocks w v).store key = w.store key) :
    ∀ (vs : List V) (w : World E), (stopAll k w vs).store key = w.store key := by
  intro vs
  induction vs with
  | nil => intro w; rfl
  | cons v vs ih =>
    intro w
    show (stopAll k (k.stopProducingBlocks w v) vs).store key = w.store key
    rw [ih, hstop]

theorem stopAll_cons (k : Keeper E P V) (w : World E) (v : V) (vs : List V) :
    stopAll k w (v :: vs) = stopAll k (k.stopProducingBlocks w v) vs := rfl

/-- When every entry resolves, the loop returns, having stopped the resolved validators in
order and logged one call for each. -/
theorem stopJailedLoop_of_resolveAll (k : Keeper E P V) :
    ∀ (us : List ValidatorUpdate) (ctx : Ctx E V) (vs : List V),
      resolveAll k ctx.world us = some vs →
      stopJailedLoop k us ctx =
        Outcome.ok () ⟨stopAll k ctx.world vs, ctx.calls ++ vs.map Call.stopProducingBlocks⟩ := by
  intro us
  induction us with
  | nil =>
    intro ctx vs h
    simp only [resolveAll, Option.some.injEq] at h
    subst h
    simp [stopJailedLoop, stopAll]
  | cons val rest ih =>
    intro ctx vs h
    unfold resolveAll at h
    unfold stopJailedLoop
    unfold resolve at h
    cases hpk : k.PB2TM_PubKey val.PubKey with
    | none => simp [hpk] at h
    | some pubKey =>
      simp only [hpk] at h ⊢
      cases hv : k.mustGetValidatorByConsAddr ctx.world (k.GetConsAddress pubKey) with
      | none => simp [hv] at h
      | some validator =>
        simp only [hv] at h ⊢
        cases hr : resolveAll k (k.stopProducingBlocks ctx.world validator) rest with
        | none => simp [hr] at h
        | some vs' =>
          simp only [hr, Option.some.injEq] at h
          subst h
          rw [ih (ctx.invoke (Call.stopProducingBlocks validator)
            (fun w => k.stopProducingBlocks w validator)) vs' hr]
          simp [Ctx.invoke, stopAll_cons]

/-- When some entry does not resolve, the loop panics at the first such entry, having
stopped only the validators of the entries before it. -/
theorem stopJailedLoop_of_resolveAll_none (k : Keeper E P V) :
    ∀ (us : List ValidatorUpdate) (ctx : Ctx E V),
      resolveAll k ctx.world us = none →
      ∃ pre val post vs, us = pre ++ val :: post ∧
        resolveAll k ctx.world pre = some vs ∧
        resolve k (stopAll k ctx.world vs) val = none ∧
        stopJailedLoop k us ctx = Outcome.panic (panicFor k val)
          ⟨stopAll k ctx.world vs, ctx.calls ++ vs.map Call.stopProducingBlocks⟩ := by
  intro us
  induction us with
  | nil => intro ctx h; simp [resolveAll] at h
  | cons val rest ih =>
    intro ctx h
    cases hres : resolve k ctx.world val with
    | none =>
      refine ⟨[], val, rest, [], rfl, rfl, hres, ?_⟩
      unfold resolve at hres
      unfold stopJailedLoop panicFor
      cases hpk : k.PB2TM_PubKey val.PubKey with
      | none => simp [stopAll]
      | some pubKey =>
        simp only [hpk] at hres
        simp [stopAll, hres]
    | some validator =>
      have hrest : resolveAll k (k.stopProducingBlocks ctx.world validator) rest = none := by
        unfold resolveAll at h
        simp only [hres] at h
        cases hr : resolveAll k (k.stopProducingBlocks ctx.world validator) rest with
        | none => rfl
        | some vs' => simp [hr] at h
      obtain ⟨pre, bad, post, vs, hsplit, hpre, hbad, hloop⟩ :=
        ih (ctx.invoke (Call.stopProducingBlocks validator)
          (fun w => k.stopProducingBlocks w validator)) hrest
      refine ⟨val :: pre, bad, post, validator :: vs, by simp [hsplit], ?_, ?_, ?_⟩
      · have hpre' : resolveAll k (k.stopProducingBlocks ctx.world validator) pre = some vs :=
          hpre
        simp [resolveAll, hres, hpre']
      · exact hbad
      · unfold resolve at hres
        unfold stopJailedLoop
        cases hpk : k.PB2TM_PubKey val.PubKey with
        | none => simp [hpk] at hres
        | some pubKey =>
          simp only [hpk] at hres
          simp only [hres]
          rw [hloop]
          simp [Ctx.invoke, stopAll_cons]

/-- An entry that does not resolve after a resolving prefix makes the whole sequence fail to
resolve. -/
theorem resolveAll_append_none (k : Keeper E P V) (val : ValidatorUpdate)
    (post : List ValidatorUpdate) :
    ∀ (pre : List ValidatorUpdate) (w : World E) (vs : List V),
      resolveAll k w pre = some vs → resolve k (stopAll k w vs) val = none →
      resolveAll k w (pre ++ val :: post) = none := by
  intro pre
  induction pre with
  | nil =>
    intro w vs h hbad
    simp only [resolveAll, Option.some.injEq] at h
    subst h
    have hbad' : resolve k w val = none := hbad
    simp [resolveAll, hbad']
  | cons u pre ih =>
    intro w vs h hbad
    unfold resolveAll at h
    cases hres : resolve k w u with
    | none => simp [resolveAll, hres]
    | some v =>
      simp only [hres] at h
      cases hr : resolveAll k (k.stopProducingBlocks w v) pre with
      | none => simp [hr] at h
      | some vs' =>
        simp only [hr, Option.some.injEq] at h
        subst h
        have := ih (k.stopProducingBlocks w v) vs' hr hbad
        simp [resolveAll, hres, this]

/-! ## Retrieval: `checkJailedValidatorUpdates` and `ValidatorUpdates` -/

theorem World.store_Set (w : World E) (key value key' : Bytes) :
    (w.Set key value).store key' = if key' = key then some value else w.store key' := rfl

/-- When every jailed entry resolves, `checkJailedValidatorUpdates` returns the stored
sequence, with the pending payload reset and the resolved validators stopped. -/
theorem checkJailedValidatorUpdates_of_resolveAll (k : Keeper E P V) (ctx : Ctx E V)
    (vs : List V)
    (hres : resolveAll k (setJailedValidatorUpdates k ctx []).world
      (getJailedValidatorUpdates k ctx) = some vs) :
    checkJailedValidatorUpdates k ctx =
      Outcome.ok (getJailedValidatorUpdates k ctx)
        ⟨stopAll k (setJailedValidatorUpdates k ctx []).world vs,
          ctx.calls ++ vs.map Call.stopProducingBlocks⟩ := by
  unfold checkJailedValidatorUpdates
  simp only [stopJailedLoop_of_resolveAll k _ _ vs hres]
  rfl

/-- When some jailed entry does not resolve, `checkJailedValidatorUpdates` panics at the
first such entry. -/
theorem checkJailedValidatorUpdates_of_resolveAll_none (k : Keeper E P V) (ctx : Ctx E V)
    (hres : resolveAll k (setJailedValidatorUpdates k ctx []).world
      (getJailedValidatorUpdates k ctx) = none) :
    ∃ pre val post vs, getJailedValidatorUpdates k ctx = pre ++ val :: post ∧
      resolveAll k (setJailedValidatorUpdates k ctx []).world pre = some vs ∧
      resolve k (stopAll k (setJailedValidatorUpdates k ctx []).world vs) val = none ∧
      checkJailedValidatorUpdates k ctx = Outcome.panic (panicFor k val)
        ⟨stopAll k (setJailedValidatorUpdates k ctx []).world vs,
          ctx.calls ++ vs.map Call.stopProducingBlocks⟩ := by
  obtain ⟨pre, val, post, vs, hsplit, hpre, hbad, hloop⟩ :=
    stopJailedLoop_of_resolveAll_none k _ _ hres
  refine ⟨pre, val, post, vs, hsplit, hpre, hbad, ?_⟩
  unfold checkJailedValidatorUpdates
  simp only [hloop]
  rfl

/-- A panic of `checkJailedValidatorUpdates` is a panic of `ValidatorUpdates`, in the same
state: nothing runs after it. -/
theorem ValidatorUpdates_of_check_panic (k : Keeper E P V) (ctx s : Ctx E V) (msg : Panic)
    (h : checkJailedValidatorUpdates k ctx = Outcome.panic msg s) :
    ValidatorUpdates k ctx = Outcome.panic msg s := by
  simp [ValidatorUpdates, h]

/-- The value under a key other than the jailed one, not written by `stopProducingBlocks`,
is the same after the jailed validators have been stopped. -/
theorem stopAll_jailedWorld_store (k : Keeper E P V) (ctx : Ctx E V) (vs : List V)
    (key : Bytes) (hstop : ∀ w v, (k.stopProducingBlocks w v).store key = w.store key)
    (hne : key ≠ jailedValidatorUpdatesKey) :
    (stopAll k (setJailedValidatorUpdates k ctx []).world vs).store key = ctx.Get key := by
  rw [stopAll_store k key hstop]
  exact Ctx.Get_Set_other ctx _ _ _ hne

/-- Retrieval without the promote flag, when every jailed entry resolves: the stored
jailed sequence is returned; the validators are stopped and the queue is drained. -/
theorem ValidatorUpdates_ok_unflagged (k : Keeper E P V) (ctx : Ctx E V) (vs : List V)
    (hstop : ∀ w v, (k.stopProducingBlocks w v).store computeValidatorUpdateKey
      = w.store computeValidatorUpdateKey)
    (hflag : flagSet ctx computeValidatorUpdateKey = false)
    (hres : resolveAll k (setJailedValidatorUpdates k ctx []).world
      (getJailedValidatorUpdates k ctx) = some vs) :
    ValidatorUpdates k ctx =
      Outcome.ok (getJailedValidatorUpdates k ctx)
        ⟨k.RemoveMatureQueueItems (stopAll k (setJailedValidatorUpdates k ctx []).world vs),
          ctx.calls ++ vs.map Call.stopProducingBlocks ++ [Call.RemoveMatureQueueItems]⟩ := by
  have hlen : len (ctx.Get computeValidatorUpdateKey) = 0 := (flagSet_eq_false_iff _ _).1 hflag
  have hget := stopAll_jailedWorld_store k ctx vs computeValidatorUpdateKey hstop
    (Ne.symm jailed_ne_compute)
  simp only [ValidatorUpdates, checkJailedValidatorUpdates_of_resolveAll k ctx vs hres,
    getComputeValUpdateKey, Ctx.Get, World.Get]
  rw [hget, hlen]
  rfl

/-- Retrieval with the promote flag, when every jailed entry resolves: the stored committee
payload is deserialized, the flag is cleared, the promotion of the payload is returned, and
the queue is drained. -/
theorem ValidatorUpdates_ok_flagged (k : Keeper E P V) (ctx : Ctx E V) (vs : List V)
    (hstop : ∀ w v, (k.stopProducingBlocks w v).store computeValidatorUpdateKey
      = w.store computeValidatorUpdateKey)
    (hflag : flagSet ctx computeValidatorUpdateKey = true)
    (hres : resolveAll k (setJailedValidatorUpdates k ctx []).world
      (getJailedValidatorUpdates k ctx) = some vs) :
    ValidatorUpdates k ctx =
      Outcome.ok
        (k.ConsensusFromDKGUpdates
          ((stopAll k (setJailedValidatorUpdates k ctx []).world vs).Set
            computeValidatorUpdateKey [])
          (k.cdc.UnmarshalBinaryLengthPrefixed
            ((stopAll k (setJailedValidatorUpdates k ctx []).world vs).store
              validatorUpdatesKey) []).1).1
        ⟨k.RemoveMatureQueueItems
          (k.ConsensusFromDKGUpdates
            ((stopAll k (setJailedValidatorUpdates k ctx []).world vs).Set
              computeValidatorUpdateKey [])
            (k.cdc.UnmarshalBinaryLengthPrefixed
              ((stopAll k (setJailedValidatorUpdates k ctx []).world vs).store
                validatorUpdatesKey) []).1).2,
          ctx.calls ++ vs.map Call.stopProducingBlocks ++
            [Call.ConsensusFromDKGUpdates
              (k.cdc.UnmarshalBinaryLengthPrefixed
                ((stopAll k (setJailedValidatorUpdates k ctx []).world vs).store
                  validatorUpdatesKey) []).1,
              Call.RemoveMatureQueueItems]⟩ := by
  have hlen : ¬ len (ctx.world.store computeValidatorUpdateKey) = 0 :=
    (flagSet_eq_true_iff _ _).1 hflag
  have hget := stopAll_jailedWorld_store k ctx vs computeValidatorUpdateKey hstop
    (Ne.symm jailed_ne_compute)
  simp only [ValidatorUpdates, checkJailedValidatorUpdates_of_resolveAll k ctx vs hres,
    getComputeValUpdateKey, Ctx.Get, World.Get]
  rw [hget]
  simp [hlen, getDKGValidatorUpdates, Ctx.invoke, Ctx.Set, Ctx.Get, World.Get]

/-- Retrieval when some jailed entry does not resolve: a panic at the first such entry, in
the state reached by stopping the validators of the entries before it. -/
theorem ValidatorUpdates_panic_of_resolveAll_none (k : Keeper E P V) (ctx : Ctx E V)
    (hres : resolveAll k (setJailedValidatorUpdates k ctx []).world
      (getJailedValidatorUpdates k ctx) = none) :
    ∃ pre val post vs, getJailedValidatorUpdates k ctx = pre ++ val :: post ∧
      resolveAll k (setJailedValidatorUpdates k ctx []).world pre = some vs ∧
      resolve k (stopAll k (setJailedValidatorUpdates k ctx []).world vs) val = none ∧
      ValidatorUpdates k ctx = Outcome.panic (panicFor k val)
        ⟨stopAll k (setJailedValidatorUpdates k ctx []).world vs,
          ctx.calls ++ vs.map Call.stopProducingBlocks⟩ := by
  obtain ⟨pre, val, post, vs, hsplit, hpre, hbad, hcheck⟩ :=
    checkJailedValidatorUpdates_of_resolveAll_none k ctx hres
  exact ⟨pre, val, post, vs, hsplit, hpre, hbad, ValidatorUpdates_of_check_panic k ctx _ _ hcheck⟩

/-- A key other than the jailed one, not written by `stopProducingBlocks`, has the same value
after `checkJailedValidatorUpdates`, whether it returns or panics. -/
theorem checkJailedValidatorUpdates_Get_other (k : Keeper E P V) (ctx : Ctx E V) (key : Bytes)
    (hstop : ∀ w v, (k.stopProducingBlocks w v).store key = w.store key)
    (hne : key ≠ jailedValidatorUpdatesKey) :
    (checkJailedValidatorUpdates k ctx).state.Get key = ctx.Get key := by
  cases hres : resolveAll k (setJailedValidatorUpdates k ctx []).world
      (getJailedValidatorUpdates k ctx) with
  | none =>
    obtain ⟨pre, val, post, vs, -, -, -, hcheck⟩ :=
      checkJailedValidatorUpdates_of_resolveAll_none k ctx hres
    rw [hcheck]
    exact stopAll_jailedWorld_store k ctx vs key hstop hne
  | some vs =>
    rw [checkJailedValidatorUpdates_of_resolveAll k ctx vs hres]
    exact stopAll_jailedWorld_store k ctx vs key hstop hne

/-- A key that no collaborator writes and that is neither the promote flag nor the jailed
payload has the same value after `ValidatorUpdates`, whether it returns or panics. -/
theorem ValidatorUpdates_Get_other (k : Keeper E P V) (ctx : Ctx E V) (key : Bytes)
    (hp : k.Preserves key) (h1 : key ≠ computeValidatorUpdateKey)
    (h2 : key ≠ jailedValidatorUpdatesKey) :
    (ValidatorUpdates k ctx).state.Get key = ctx.Get key := by
  have hcheck := checkJailedValidatorUpdates_Get_other k ctx key hp.stop h2
  unfold ValidatorUpdates
  cases hc : checkJailedValidatorUpdates k ctx with
  | panic msg s =>
    rw [hc] at hcheck
    exact hcheck
  | ok jailed ctx1 =>
    rw [hc] at hcheck
    have hcheck' : ctx1.world.store key = ctx.Get key := hcheck
    show (k.RemoveMatureQueueItems _).store key = ctx.Get key
    rw [hp.remove]
    split
    · show (k.ConsensusFromDKGUpdates _ _).2.store key = ctx.Get key
      rw [hp.consensus]
      show (ctx1.world.Set computeValidatorUpdateKey []).store key = ctx.Get key
      rw [World.store_Set, if_neg h1, hcheck']
    · exact hcheck'

/-- A result of `ValidatorUpdates` that returned comes from a jailed sequence that
resolves. -/
theorem resolveAll_of_ValidatorUpdates_ok (k : Keeper E P V) (ctx ctx' : Ctx E V)
    (r : List ValidatorUpdate) (hok : ValidatorUpdates k ctx = Outcome.ok r ctx') :
    ∃ vs, resolveAll k (setJailedValidatorUpdates k ctx []).world
      (getJailedValidatorUpdates k ctx) = some vs := by
  cases hres : resolveAll k (setJailedValidatorUpdates k ctx []).world
      (getJailedValidatorUpdates k ctx) with
  | none =>
    obtain ⟨pre, val, post, vs, -, -, -, hpanic⟩ :=
      ValidatorUpdates_panic_of_resolveAll_none k ctx hres
    rw [hpanic] at hok
    cases hok
  | some vs => exact ⟨vs, rfl⟩

/-- Claim C4: when the promote flag is set and the stored committee payload deserializes
to `U`, a `ValidatorUpdates` that returns gives the result of `ConsensusFromDKGUpdates` on
`U`, called in the state left by the jailed handling with the flag cleared, whatever the
jailed sequence was; the promotion and the queue drain are the calls made after the jailed
handling, and the promote flag ends with the empty value. The collaborators are assumed not
to write the four keys of this file. -/
theorem ValidatorUpdates_promotes (k : Keeper E P V) (ctx ctx' : Ctx E V)
    (U r : List ValidatorUpdate) (hown : k.KeysOwned)
    (hflag : flagSet ctx computeValidatorUpdateKey = true)
    (hU : (k.cdc.UnmarshalBinaryLengthPrefixed (ctx.Get validatorUpdatesKey) []).1 = U)
    (hok : ValidatorUpdates k ctx = Outcome.ok r ctx') :
    ∃ jailed ctx1, checkJailedValidatorUpdates k ctx = Outcome.ok jailed ctx1 ∧
      r = (k.ConsensusFromDKGUpdates (ctx1.Set computeValidatorUpdateKey []).world U).1 ∧
      ctx'.calls = ctx1.calls ++ [Call.ConsensusFromDKGUpdates U, Call.RemoveMatureQueueItems] ∧
      ctx'.Get computeValidatorUpdateKey = some [] ∧
      flagSet ctx' computeValidatorUpdateKey = false := by
  have hcv := hown _ compute_mem_coreKeys
  have hup := hown _ updates_mem_coreKeys
  obtain ⟨vs, hres⟩ := resolveAll_of_ValidatorUpdates_ok k ctx ctx' r hok
  have hpay := stopAll_jailedWorld_store k ctx vs validatorUpdatesKey hup.stop
    (Ne.symm jailed_ne_updates)
  rw [ValidatorUpdates_ok_flagged k ctx vs hcv.stop hflag hres, hpay, hU] at hok
  injection hok with hr hctx
  have hfinal : ctx'.Get computeValidatorUpdateKey = some [] := by
    rw [← hctx]
    show (k.RemoveMatureQueueItems _).store computeValidatorUpdateKey = some []
    rw [hcv.remove, hcv.consensus, World.store_Set, if_pos rfl]
  refine ⟨_, _, checkJailedValidatorUpdates_of_resolveAll k ctx vs hres, hr.symm, ?_, hfinal, ?_⟩
  · rw [← hctx]
  · rw [flagSet_eq_false_iff, hfinal]
    rfl

/-- An instance of `ValidatorUpdates_promotes`: scenario E, the payload
`U = [(pkA,10),(pkB,0)]` with the promote flag set and validator 2 jailed; the demo
promotion keeps `(pkA,10)`. -/
theorem ValidatorUpdates_promotes_witness :
    flagSet (demoCtx false true [⟨demoPk 0, 10⟩, ⟨demoPk 1, 0⟩] [⟨demoPk 2, 0⟩])
      computeValidatorUpdateKey = true ∧
    ∃ ctx', ValidatorUpdates (demoKeeper true)
        (demoCtx false true [⟨demoPk 0, 10⟩, ⟨demoPk 1, 0⟩] [⟨demoPk 2, 0⟩])
        = Outcome.ok [⟨demoPk 0, 10⟩] ctx' ∧
      ctx'.Get computeValidatorUpdateKey = some [] :=
  ⟨by decide, _, rfl,
    (ValidatorUpdates_promotes (demoKeeper true)
      (demoCtx false true [⟨demoPk 0, 10⟩, ⟨demoPk 1, 0⟩] [⟨demoPk 2, 0⟩]) _
      [⟨demoPk 0, 10⟩, ⟨demoPk 1, 0⟩] [⟨demoPk 0, 10⟩] (demoKeeper_KeysOwned true) (by decide)
      (by decide) rfl).choose_spec.choose_spec.2.2.2.1⟩

/-- Claim C5: when the promote flag is not set and every jailed entry resolves (to the
validators `vs`), `ValidatorUpdates` returns the stored jailed sequence as it was read; the
calls it makes are the `stopProducingBlocks` calls and the queue drain, none of them a
promotion; and the jailed payload it leaves deserializes to the empty sequence. The
collaborators are assumed not to write the four keys, and the codec to round-trip the empty
sequence. -/
theorem ValidatorUpdates_unflagged (k : Keeper E P V) (ctx : Ctx E V) (vs : List V)
    (hown : k.KeysOwned) (hcdc : k.cdc.RoundTripsEmpty)
    (hflag : flagSet ctx computeValidatorUpdateKey = false)
    (hres : resolveAll k (setJailedValidatorUpdates k ctx []).world
      (getJailedValidatorUpdates k ctx) = some vs) :
    ∃ ctx', ValidatorUpdates k ctx = Outcome.ok (getJailedValidatorUpdates k ctx) ctx' ∧
      ctx'.calls = ctx.calls ++ vs.map Call.stopProducingBlocks ++ [Call.RemoveMatureQueueItems] ∧
      (∀ U, Call.ConsensusFromDKGUpdates U ∉
        vs.map Call.stopProducingBlocks ++ [Call.RemoveMatureQueueItems]) ∧
      getJailedValidatorUpdates k ctx' = [] := by
  have hcv := hown _ compute_mem_coreKeys
  have hj := hown _ jailed_mem_coreKeys
  refine ⟨_, ValidatorUpdates_ok_unflagged k ctx vs hcv.stop hflag hres, rfl, ?_, ?_⟩
  · intro U
    simp
  · show (k.cdc.UnmarshalBinaryLengthPrefixed
      ((k.RemoveMatureQueueItems _).store jailedValidatorUpdatesKey) []).1 = []
    rw [hj.remove, stopAll_store k _ hj.stop]
    show (k.cdc.UnmarshalBinaryLengthPrefixed
      ((ctx.Set jailedValidatorUpdatesKey _).Get jailedValidatorUpdatesKey) []).1 = []
    rw [Ctx.Get_Set_same]
    exact hcdc

/-- An instance of `ValidatorUpdates_unflagged`: scenario F, no flag set and validator 2
pending as `(pkC,0)`; the sequence `[(pkC,0)]` is returned, validator 2 is stopped and the
pending list is then empty. -/
theorem ValidatorUpdates_unflagged_witness :
    flagSet (demoCtx false false [] [⟨demoPk 2, 0⟩]) computeValidatorUpdateKey = false ∧
    getJailedValidatorUpdates (demoKeeper true) (demoCtx false false [] [⟨demoPk 2, 0⟩])
      = [⟨demoPk 2, 0⟩] ∧
    ∃ ctx', ValidatorUpdates (demoKeeper true) (demoCtx false false [] [⟨demoPk 2, 0⟩])
        = Outcome.ok [⟨demoPk 2, 0⟩] ctx' ∧
      ctx'.calls = [Call.stopProducingBlocks 2, Call.RemoveMatureQueueItems] ∧
      getJailedValidatorUpdates (demoKeeper true) ctx' = [] :=
  have h := ValidatorUpdates_unflagged (demoKeeper true)
    (demoCtx false false [] [⟨demoPk 2, 0⟩]) [2] (demoKeeper_KeysOwned true)
    specCodec_RoundTripsEmpty (by decide) rfl
  ⟨by decide, rfl, h.choose, h.choose_spec.1, h.choose_spec.2.1, h.choose_spec.2.2.2⟩

/-- `ValidatorUpdates` panics exactly when the stored jailed sequence does not resolve. -/
theorem ValidatorUpdates_panics_iff_resolveAll_none (k : Keeper E P V) (ctx : Ctx E V) :
    (∃ msg s, ValidatorUpdates k ctx = Outcome.panic msg s) ↔
      resolveAll k (setJailedValidatorUpdates k ctx []).world
        (getJailedValidatorUpdates k ctx) = none := by
  constructor
  · rintro ⟨msg, s, hpanic⟩
    cases hres : resolveAll k (setJailedValidatorUpdates k ctx []).world
        (getJailedValidatorUpdates k ctx) with
    | none => rfl
    | some vs =>
      exfalso
      unfold ValidatorUpdates at hpanic
      rw [checkJailedValidatorUpdates_of_resolveAll k ctx vs hres] at hpanic
      cases hpanic
  · intro hnone
    obtain ⟨_, _, _, _, -, -, -, hp⟩ := ValidatorUpdates_panic_of_resolveAll_none k ctx hnone
    exact ⟨_, _, hp⟩

/-- Where `stopProducingBlocks` does not change what the validator lookup finds, an entry
resolves after it as it did before. -/
theorem resolve_stop (k : Keeper E P V)
    (hst : ∀ w v addr, k.mustGetValidatorByConsAddr (k.stopProducingBlocks w v) addr
      = k.mustGetValidatorByConsAddr w addr)
    (w : World E) (v : V) (val : ValidatorUpdate) :
    resolve k (k.stopProducingBlocks w v) val = resolve k w val := by
  unfold resolve
  cases k.PB2TM_PubKey val.PubKey with
  | none => rfl
  | some pubKey => exact hst w v _

/-- Where `stopProducingBlocks` does not change what the validator lookup finds, a sequence
fails to resolve exactly when one of its entries does not resolve in the starting world. -/
theorem resolveAll_none_iff_of_stable (k : Keeper E P V)
    (hst : ∀ w v addr, k.mustGetValidatorByConsAddr (k.stopProducingBlocks w v) addr
      = k.mustGetValidatorByConsAddr w addr) :
    ∀ (us : List ValidatorUpdate) (w : World E),
      resolveAll k w us = none ↔ ∃ val ∈ us, resolve k w val = none := by
  intro us
  induction us with
  | nil => intro w; simp [resolveAll]
  | cons u rest ih =>
    intro w
    cases hres : resolve k w u with
    | none => simp [resolveAll, hres]
    | some v =>
      have hrest := ih (k.stopProducingBlocks w v)
      simp only [resolve_stop k hst] at hrest
      cases hr : resolveAll k (k.stopProducingBlocks w v) rest with
      | none =>
        obtain ⟨val, hmem, hval⟩ := hrest.1 hr
        simp only [resolveAll, hres, hr, true_iff]
        exact ⟨val, List.mem_cons_of_mem _ hmem, hval⟩
      | some vs =>
        simp only [resolveAll, hres, hr, false_iff, reduceCtorEq]
        rintro ⟨val, hmem, hval⟩
        rcases List.mem_cons.1 hmem with h | h
        · rw [h, hres] at hval
          cases hval
        · have := hrest.2 ⟨val, h, hval⟩
          rw [hr] at this
          cases this

/-- Claim C6: `ValidatorUpdates` panics if and only if the stored jailed sequence splits as
`pre ++ val :: post` where the entries of `pre` resolve and `val` does not (its public key
does not convert, or no validator record is found for it) in the state reached by stopping
the validators of `pre`; when it panics, it does so at such a first failing entry, the
world being the one where exactly the validators of `pre` have been stopped and the call
log holding, after the earlier calls, only those `stopProducingBlocks` calls: neither the
promotion nor the queue drain has been invoked. Where `stopProducingBlocks` does not change
what the validator lookup finds, it panics if and only if some stored entry does not
resolve in the state after the pending payload was reset. -/
theorem ValidatorUpdates_panics_iff (k : Keeper E P V) (ctx : Ctx E V) :
    ((∃ msg s, ValidatorUpdates k ctx = Outcome.panic msg s) ↔
      ∃ pre val post vs, getJailedValidatorUpdates k ctx = pre ++ val :: post ∧
        resolveAll k (setJailedValidatorUpdates k ctx []).world pre = some vs ∧
        resolve k (stopAll k (setJailedValidatorUpdates k ctx []).world vs) val = none) ∧
    (∀ msg s, ValidatorUpdates k ctx = Outcome.panic msg s →
      ∃ pre val post vs, getJailedValidatorUpdates k ctx = pre ++ val :: post ∧
        resolveAll k (setJailedValidatorUpdates k ctx []).world pre = some vs ∧
        resolve k (stopAll k (setJailedValidatorUpdates k ctx []).world vs) val = none ∧
        msg = panicFor k val ∧
        s.world = stopAll k (setJailedValidatorUpdates k ctx []).world vs ∧
        s.calls = ctx.calls ++ vs.map Call.stopProducingBlocks ∧
        (∀ U, Call.ConsensusFromDKGUpdates U ∉ vs.map Call.stopProducingBlocks) ∧
        Call.RemoveMatureQueueItems ∉ vs.map Call.stopProducingBlocks) ∧
    ((∀ w v addr, k.mustGetValidatorByConsAddr (k.stopProducingBlocks w v) addr
        = k.mustGetValidatorByConsAddr w addr) →
      ((∃ msg s, ValidatorUpdates k ctx = Outcome.panic msg s) ↔
        ∃ val ∈ getJailedValidatorUpdates k ctx,
          resolve k (setJailedValidatorUpdates k ctx []).world val = none)) := by
  have key : ∀ msg s, ValidatorUpdates k ctx = Outcome.panic msg s →
      ∃ pre val post vs, getJailedValidatorUpdates k ctx = pre ++ val :: post ∧
        resolveAll k (setJailedValidatorUpdates k ctx []).world pre = some vs ∧
        resolve k (stopAll k (setJailedValidatorUpdates k ctx []).world vs) val = none ∧
        msg = panicFor k val ∧
        s.world = stopAll k (setJailedValidatorUpdates k ctx []).world vs ∧
        s.calls = ctx.calls ++ vs.map Call.stopProducingBlocks ∧
        (∀ U, Call.ConsensusFromDKGUpdates U ∉ vs.map Call.stopProducingBlocks) ∧
        Call.RemoveMatureQueueItems ∉ vs.map Call.stopProducingBlocks := by
    intro msg s hpanic
    have hres := (ValidatorUpdates_panics_iff_resolveAll_none k ctx).1 ⟨msg, s, hpanic⟩
    obtain ⟨pre, val, post, vs, hsplit, hpre, hbad, hp⟩ :=
      ValidatorUpdates_panic_of_resolveAll_none k ctx hres
    rw [hp] at hpanic
    injection hpanic with hmsg hs
    refine ⟨pre, val, post, vs, hsplit, hpre, hbad, hmsg.symm, ?_, ?_, ?_, ?_⟩
    · rw [← hs]
    · rw [← hs]
    · intro U
      simp
    · simp
  refine ⟨⟨?_, ?_⟩, key, ?_⟩
  · rintro ⟨msg, s, hpanic⟩
    obtain ⟨pre, val, post, vs, hsplit, hpre, hbad, -⟩ := key msg s hpanic
    exact ⟨pre, val, post, vs, hsplit, hpre, hbad⟩
  · rintro ⟨pre, val, post, vs, hsplit, hpre, hbad⟩
    apply (ValidatorUpdates_panics_iff_resolveAll_none k ctx).2
    rw [hsplit]
    exact resolveAll_append_none k val post pre _ vs hpre hbad
  · intro hst
    rw [ValidatorUpdates_panics_iff_resolveAll_none]
    exact resolveAll_none_iff_of_stable k hst _ _

/-- An instance of `ValidatorUpdates_panics_iff`: with validator 2, an entry of unknown key
type and validator 1 pending, `ValidatorUpdates` panics with the conversion error after
stopping validator 2 only, and the stored sequence splits at a first failing entry. -/
theorem ValidatorUpdates_panics_iff_witness :
    (∃ s, ValidatorUpdates (demoKeeper true)
        (demoCtx false true [] [⟨demoPk 2, 0⟩, ⟨⟨"unknown", [1]⟩, 0⟩, ⟨demoPk 1, 0⟩])
        = Outcome.panic (Panic.convertingPublicKey ⟨"unknown", [1]⟩) s ∧
      s.calls = [Call.stopProducingBlocks 2] ∧ s.world.ext = [2]) ∧
    ∃ pre val post vs,
      getJailedValidatorUpdates (demoKeeper true)
        (demoCtx false true [] [⟨demoPk 2, 0⟩, ⟨⟨"unknown", [1]⟩, 0⟩, ⟨demoPk 1, 0⟩])
        = pre ++ val :: post ∧
      resolveAll (demoKeeper true)
        (setJailedValidatorUpdates (demoKeeper true)
          (demoCtx false true [] [⟨demoPk 2, 0⟩, ⟨⟨"unknown", [1]⟩, 0⟩, ⟨demoPk 1, 0⟩])
          []).world pre = some vs ∧
      resolve (demoKeeper true)
        (stopAll (demoKeeper true)
          (setJailedValidatorUpdates (demoKeeper true)
            (demoCtx false true [] [⟨demoPk 2, 0⟩, ⟨⟨"unknown", [1]⟩, 0⟩, ⟨demoPk 1, 0⟩])
            []).world vs) val = none :=
  ⟨⟨_, rfl, rfl, rfl⟩,
    (ValidatorUpdates_panics_iff (demoKeeper true)
      (demoCtx false true [] [⟨demoPk 2, 0⟩, ⟨⟨"unknown", [1]⟩, 0⟩, ⟨demoPk 1, 0⟩])).1.1
      ⟨_, _, rfl⟩⟩

/-- Claim C7, evaluated on the code where it fails: the comment in `ValidatorUpdates` says
that away from changeover points only jailed validators are removed, but nothing inspects
the power of a stored jailed entry. With no promote flag and the entry `(pkC,5)` pending,
where `pkC` is a 32-byte ed25519 key that converts and resolves to validator 2 on record,
`ValidatorUpdates` returns `[(pkC,5)]`: an update of voting power 5, a reweighting and not a
removal. -/
theorem ValidatorUpdates_unflagged_nonzero_power :
    flagSet (demoCtx false false [] [⟨demoPk 2, 5⟩]) computeValidatorUpdateKey = false ∧
    getJailedValidatorUpdates (demoKeeper true) (demoCtx false false [] [⟨demoPk 2, 5⟩])
      = [⟨demoPk 2, 5⟩] ∧
    (demoPk 2).Type_ = "ed25519" ∧ (demoPk 2).Data.length = 32 ∧
    resolve (demoKeeper true) (demoCtx false false [] [⟨demoPk 2, 5⟩]).world ⟨demoPk 2, 5⟩
      = some 2 ∧
    (ValidatorUpdates (demoKeeper true) (demoCtx false false [] [⟨demoPk 2, 5⟩])).returned
      = some [⟨demoPk 2, 5⟩] ∧
    (⟨demoPk 2, 5⟩ : ValidatorUpdate).Power ≠ 0 :=
  ⟨by decide, rfl, rfl, rfl, rfl, rfl, by decide⟩

/-- Without the promote flag, a `ValidatorUpdates` that returns gives the stored jailed
sequence itself, so every returned update has voting power 0 when every stored jailed entry
has; the code does not inspect the power. `stopProducingBlocks` is assumed not to write the
promote flag. -/
theorem ValidatorUpdates_unflagged_power (k : Keeper E P V) (ctx ctx' : Ctx E V)
    (r : List ValidatorUpdate)
    (hstop : ∀ w v, (k.stopProducingBlocks w v).store computeValidatorUpdateKey
      = w.store computeValidatorUpdateKey)
    (hflag : flagSet ctx computeValidatorUpdateKey = false)
    (hzero : ∀ u ∈ getJailedValidatorUpdates k ctx, u.Power = 0)
    (hok : ValidatorUpdates k ctx = Outcome.ok r ctx') :
    r = getJailedValidatorUpdates k ctx ∧ ∀ u ∈ r, u.Power = 0 := by
  obtain ⟨vs, hres⟩ := resolveAll_of_ValidatorUpdates_ok k ctx ctx' r hok
  rw [ValidatorUpdates_ok_unflagged k ctx vs hstop hflag hres] at hok
  injection hok with hr hctx
  subst hr
  exact ⟨rfl, hzero⟩

/-- An instance of `ValidatorUpdates_unflagged_power`: validators 2 and 0 pending with
power 0 and no promote flag. -/
theorem ValidatorUpdates_unflagged_power_witness :
    flagSet (demoCtx false false [] [⟨demoPk 2, 0⟩, ⟨demoPk 0, 0⟩]) computeValidatorUpdateKey
      = false ∧
    (ValidatorUpdates (demoKeeper true)
      (demoCtx false false [] [⟨demoPk 2, 0⟩, ⟨demoPk 0, 0⟩])).returned
      = some [⟨demoPk 2, 0⟩, ⟨demoPk 0, 0⟩] ∧
    ∀ u ∈ [(⟨demoPk 2, 0⟩ : ValidatorUpdate), ⟨demoPk 0, 0⟩], u.Power = 0 :=
  ⟨by decide, rfl,
    (ValidatorUpdates_unflagged_power (demoKeeper true)
      (demoCtx false false [] [⟨demoPk 2, 0⟩, ⟨demoPk 0, 0⟩]) _
      [⟨demoPk 2, 0⟩, ⟨demoPk 0, 0⟩] (fun _ _ => rfl) (by decide) (by decide) rfl).2⟩

/-- Claim C8: after a `ValidatorUpdates` that returned from a state with the promote flag
set (and so made a promotion call), a second `ValidatorUpdates` on the state it left returns
the empty sequence and makes a single call, the queue drain: no promotion. The collaborators
are assumed not to write the four keys, and the codec to round-trip the empty sequence. -/
theorem ValidatorUpdates_twice (k : Keeper E P V) (ctx ctx1 : Ctx E V)
    (r : List ValidatorUpdate) (hown : k.KeysOwned) (hcdc : k.cdc.RoundTripsEmpty)
    (hflag : flagSet ctx computeValidatorUpdateKey = true)
    (hfirst : ValidatorUpdates k ctx = Outcome.ok r ctx1) :
    (∃ (vs : List V) (U : List ValidatorUpdate),
      ctx1.calls = ctx.calls ++ vs.map Call.stopProducingBlocks ++
      [Call.ConsensusFromDKGUpdates U, Call.RemoveMatureQueueItems]) ∧
    flagSet ctx1 computeValidatorUpdateKey = false ∧
    getJailedValidatorUpdates k ctx1 = [] ∧
    ValidatorUpdates k ctx1 =
      Outcome.ok []
        ⟨k.RemoveMatureQueueItems (setJailedValidatorUpdates k ctx1 []).world,
          ctx1.calls ++ [Call.RemoveMatureQueueItems]⟩ := by
  have hcv := hown _ compute_mem_coreKeys
  have hj := hown _ jailed_mem_coreKeys
  obtain ⟨vs, hres⟩ := resolveAll_of_ValidatorUpdates_ok k ctx ctx1 r hfirst
  rw [ValidatorUpdates_ok_flagged k ctx vs hcv.stop hflag hres] at hfirst
  injection hfirst with hr hctx
  have hflag1 : flagSet ctx1 computeValidatorUpdateKey = false := by
    rw [flagSet_eq_false_iff, ← hctx]
    show len ((k.RemoveMatureQueueItems _).store computeValidatorUpdateKey) = 0
    rw [hcv.remove, hcv.consensus, World.store_Set, if_pos rfl]
    rfl
  have hjailed1 : getJailedValidatorUpdates k ctx1 = [] := by
    rw [← hctx]
    show (k.cdc.UnmarshalBinaryLengthPrefixed
      ((k.RemoveMatureQueueItems _).store jailedValidatorUpdatesKey) []).1 = []
    rw [hj.remove, hj.consensus, World.store_Set, if_neg jailed_ne_compute,
      stopAll_store k _ hj.stop]
    show (k.cdc.UnmarshalBinaryLengthPrefixed
      ((ctx.Set jailedValidatorUpdatesKey _).Get jailedValidatorUpdatesKey) []).1 = []
    rw [Ctx.Get_Set_same]
    exact hcdc
  have hres1 : resolveAll k (setJailedValidatorUpdates k ctx1 []).world
      (getJailedValidatorUpdates k ctx1) = some [] := by
    rw [hjailed1]
    rfl
  refine ⟨⟨vs, _, by rw [← hctx]⟩, hflag1, hjailed1, ?_⟩
  rw [ValidatorUpdates_ok_unflagged k ctx1 [] hcv.stop hflag1 hres1, hjailed1]
  simp [stopAll]

/-- An instance of `ValidatorUpdates_twice`: scenario E retrieved a second time. -/
theorem ValidatorUpdates_twice_witness :
    ∃ ctx1 ctx2,
      ValidatorUpdates (demoKeeper true)
        (demoCtx false true [⟨demoPk 0, 10⟩, ⟨demoPk 1, 0⟩] [⟨demoPk 2, 0⟩])
        = Outcome.ok [⟨demoPk 0, 10⟩] ctx1 ∧
      ValidatorUpdates (demoKeeper true) ctx1 = Outcome.ok [] ctx2 ∧
      ctx2.calls = ctx1.calls ++ [Call.RemoveMatureQueueItems] :=
  ⟨_, _, rfl,
    (ValidatorUpdates_twice (demoKeeper true)
      (demoCtx false true [⟨demoPk 0, 10⟩, ⟨demoPk 1, 0⟩] [⟨demoPk 2, 0⟩]) _
      [⟨demoPk 0, 10⟩] (demoKeeper_KeysOwned true) specCodec_RoundTripsEmpty (by decide)
      rfl).2.2.2, rfl⟩

/-- Claim C10: `ValidatorUpdates`, whether it promotes, only returns the jailed sequence or
panics, leaves the bytes under `validatorUpdatesKey` and under
`computeDKGValidatorUpdateKey` as they were; more generally every key that no collaborator
writes and that is neither the promote flag nor the jailed payload keeps its value, so those
two are the only keys `ValidatorUpdates` itself writes. The collaborators are assumed not to
write the four keys of this file. -/
theorem ValidatorUpdates_frame (k : Keeper E P V) (ctx : Ctx E V) (hown : k.KeysOwned) :
    (ValidatorUpdates k ctx).state.Get validatorUpdatesKey = ctx.Get validatorUpdatesKey ∧
    (ValidatorUpdates k ctx).state.Get computeDKGValidatorUpdateKey
      = ctx.Get computeDKGValidatorUpdateKey ∧
    ∀ key, k.Preserves key → key ≠ computeValidatorUpdateKey →
      key ≠ jailedValidatorUpdatesKey →
      (ValidatorUpdates k ctx).state.Get key = ctx.Get key :=
  ⟨ValidatorUpdates_Get_other k ctx _ (hown _ updates_mem_coreKeys) updates_ne_compute
      (Ne.symm jailed_ne_updates),
    ValidatorUpdates_Get_other k ctx _ (hown _ computeDKG_mem_coreKeys) computeDKG_ne_compute
      (Ne.symm jailed_ne_computeDKG),
    fun key hp h1 h2 => ValidatorUpdates_Get_other k ctx key hp h1 h2⟩

/-- An instance of `ValidatorUpdates_frame`: after the promotion of scenario E the committee
payload is still the serialization of `U`, and the compute-DKG flag, which was set, is still
set. -/
theorem ValidatorUpdates_frame_witness :
    (ValidatorUpdates (demoKeeper true)
      (demoCtx true true [⟨demoPk 0, 10⟩, ⟨demoPk 1, 0⟩] [⟨demoPk 2, 0⟩])).state.Get
        validatorUpdatesKey
      = some (specCodec.MustMarshalBinaryLengthPrefixed [⟨demoPk 0, 10⟩, ⟨demoPk 1, 0⟩]) ∧
    (ValidatorUpdates (demoKeeper true)
      (demoCtx true true [⟨demoPk 0, 10⟩, ⟨demoPk 1, 0⟩] [⟨demoPk 2, 0⟩])).state.Get
        computeDKGValidatorUpdateKey = some [0] :=
  ⟨(ValidatorUpdates_frame (demoKeeper true)
      (demoCtx true true [⟨demoPk 0, 10⟩, ⟨demoPk 1, 0⟩] [⟨demoPk 2, 0⟩])
      (demoKeeper_KeysOwned true)).1,
    (ValidatorUpdates_frame (demoKeeper true)
      (demoCtx true true [⟨demoPk 0, 10⟩, ⟨demoPk 1, 0⟩] [⟨demoPk 2, 0⟩])
      (demoKeeper_KeysOwned true)).2.1⟩

/-! ## Facts about every retrieval that returns -/

/-- A sequence that resolves gives one validator for each entry. -/
theorem resolveAll_length (k : Keeper E P V) :
    ∀ (us : List ValidatorUpdate) (w : World E) (vs : List V),
      resolveAll k w us = some vs → vs.length = us.length := by
  intro us
  induction us with
  | nil =>
    intro w vs h
    simp only [resolveAll, Option.some.injEq] at h
    subst h
    rfl
  | cons u rest ih =>
    intro w vs h
    unfold resolveAll at h
    cases hres : resolve k w u with
    | none => simp [hres] at h
    | some v =>
      simp only [hres] at h
      cases hr : resolveAll k (k.stopProducingBlocks w v) rest with
      | none => simp [hr] at h
      | some vs' =>
        simp only [hr, Option.some.injEq] at h
        subst h
        simp [ih _ _ hr]

/-- In a sequence that resolves, the validator at position `i` is the one the entry at
position `i` resolves to in the world where the validators before it have been stopped. -/
theorem resolveAll_getElem (k : Keeper E P V) :
    ∀ (us : List ValidatorUpdate) (w : World E) (vs : List V),
      resolveAll k w us = some vs →
      ∀ (i : Nat) (val : ValidatorUpdate), us[i]? = some val →
        ∃ v, vs[i]? = some v ∧ resolve k (stopAll k w (vs.take i)) val = some v := by
  intro us
  induction us with
  | nil => intro w vs _ i val hval; simp at hval
  | cons u rest ih =>
    intro w vs h i val hval
    unfold resolveAll at h
    cases hres : resolve k w u with
    | none => simp [hres] at h
    | some v =>
      simp only [hres] at h
      cases hr : resolveAll k (k.stopProducingBlocks w v) rest with
      | none => simp [hr] at h
      | some vs' =>
        simp only [hr, Option.some.injEq] at h
        subst h
        cases i with
        | zero =>
          simp only [List.getElem?_cons_zero, Option.some.injEq] at hval
          subst hval
          exact ⟨v, by simp, hres⟩
        | succ j =>
          simp only [List.getElem?_cons_succ] at hval
          obtain ⟨v', hv', hr'⟩ := ih _ _ hr j val hval
          exact ⟨v', by simpa using hv', by simpa [stopAll_cons] using hr'⟩

/-- The calls of a retrieval that returns: the `stopProducingBlocks` calls for the resolved
validators, then the promotion if there is one, then the queue drain. -/
theorem ValidatorUpdates_ok_calls (k : Keeper E P V) (ctx ctx' : Ctx E V)
    (r : List ValidatorUpdate) (hok : ValidatorUpdates k ctx = Outcome.ok r ctx') :
    ∃ vs, resolveAll k (setJailedValidatorUpdates k ctx []).world
        (getJailedValidatorUpdates k ctx) = some vs ∧
      (ctx'.calls = ctx.calls ++ vs.map Call.stopProducingBlocks ++
          [Call.RemoveMatureQueueItems] ∨
        ∃ U, ctx'.calls = ctx.calls ++ vs.map Call.stopProducingBlocks ++
          [Call.ConsensusFromDKGUpdates U, Call.RemoveMatureQueueItems]) := by
  obtain ⟨vs, hres⟩ := resolveAll_of_ValidatorUpdates_ok k ctx ctx' r hok
  refine ⟨vs, hres, ?_⟩
  unfold ValidatorUpdates at hok
  rw [checkJailedValidatorUpdates_of_resolveAll k ctx vs hres] at hok
  simp only at hok
  split at hok
  · injection hok with _ hctx
    right
    refine ⟨(getDKGValidatorUpdates k
      ⟨stopAll k (setJailedValidatorUpdates k ctx []).world vs,
        ctx.calls ++ vs.map Call.stopProducingBlocks⟩).1, ?_⟩
    rw [← hctx]
    simp [Ctx.invoke, getDKGValidatorUpdates, Ctx.Set]
  · injection hok with _ hctx
    left
    rw [← hctx]
    simp [Ctx.invoke]

/-- After a retrieval that returns, the jailed payload is the serialization of the empty
sequence, provided no collaborator writes the jailed key. -/
theorem ValidatorUpdates_ok_Get_jailed (k : Keeper E P V) (ctx ctx' : Ctx E V)
    (r : List ValidatorUpdate) (hp : k.Preserves jailedValidatorUpdatesKey)
    (hok : ValidatorUpdates k ctx = Outcome.ok r ctx') :
    ctx'.Get jailedValidatorUpdatesKey = some (k.cdc.MustMarshalBinaryLengthPrefixed []) := by
  obtain ⟨vs, hres⟩ := resolveAll_of_ValidatorUpdates_ok k ctx ctx' r hok
  have hstart : (stopAll k (setJailedValidatorUpdates k ctx []).world vs).store
      jailedValidatorUpdatesKey = some (k.cdc.MustMarshalBinaryLengthPrefixed []) := by
    rw [stopAll_store k _ hp.stop]
    exact Ctx.Get_Set_same ctx _ _
  unfold ValidatorUpdates at hok
  rw [checkJailedValidatorUpdates_of_resolveAll k ctx vs hres] at hok
  simp only at hok
  split at hok
  · injection hok with _ hctx
    rw [← hctx]
    show (k.RemoveMatureQueueItems (k.ConsensusFromDKGUpdates _ _).2).store
      jailedValidatorUpdatesKey = _
    rw [hp.remove, hp.consensus]
    show (World.Set _ computeValidatorUpdateKey []).store jailedValidatorUpdatesKey = _
    rw [World.store_Set, if_neg jailed_ne_compute]
    exact hstart
  · injection hok with _ hctx
    rw [← hctx]
    show (k.RemoveMatureQueueItems _).store jailedValidatorUpdatesKey = _
    rw [hp.remove]
    exact hstart

/-- After a retrieval that returns, the promote flag is clear, provided no collaborator
writes the promote key. -/
theorem ValidatorUpdates_ok_flag_clear (k : Keeper E P V) (ctx ctx' : Ctx E V)
    (r : List ValidatorUpdate) (hp : k.Preserves computeValidatorUpdateKey)
    (hok : ValidatorUpdates k ctx = Outcome.ok r ctx') :
    flagSet ctx' computeValidatorUpdateKey = false := by
  obtain ⟨vs, hres⟩ := resolveAll_of_ValidatorUpdates_ok k ctx ctx' r hok
  rw [flagSet_eq_false_iff]
  cases hflag : flagSet ctx computeValidatorUpdateKey with
  | true =>
    rw [ValidatorUpdates_ok_flagged k ctx vs hp.stop hflag hres] at hok
    injection hok with _ hctx
    rw [← hctx]
    show len ((k.RemoveMatureQueueItems _).store computeValidatorUpdateKey) = 0
    rw [hp.remove, hp.consensus, World.store_Set, if_pos rfl]
    rfl
  | false =>
    rw [ValidatorUpdates_ok_unflagged k ctx vs hp.stop hflag hres] at hok
    injection hok with _ hctx
    rw [← hctx]
    show len ((k.RemoveMatureQueueItems _).store computeValidatorUpdateKey) = 0
    rw [hp.remove, stopAll_jailedWorld_store k ctx vs _ hp.stop (Ne.symm jailed_ne_compute)]
    exact (flagSet_eq_false_iff _ _).1 hflag

/-- Claim C11: a `ValidatorUpdates` that returns, whether or not the promote flag is set,
has resolved every stored jailed entry (entry `i` to validator `vs[i]`, in the world where
the validators before it have been stopped), has called `stopProducingBlocks` once for each
of them in stored order and for nothing else, and leaves a jailed payload that deserializes
to the empty sequence. The collaborators are assumed not to write the jailed key, and the
codec to round-trip the empty sequence. -/
theorem ValidatorUpdates_drains_jailed (k : Keeper E P V) (ctx ctx' : Ctx E V)
    (r : List ValidatorUpdate) (hown : k.Preserves jailedValidatorUpdatesKey)
    (hcdc : k.cdc.RoundTripsEmpty)
    (hok : ValidatorUpdates k ctx = Outcome.ok r ctx') :
    ∃ vs, resolveAll k (setJailedValidatorUpdates k ctx []).world
        (getJailedValidatorUpdates k ctx) = some vs ∧
      vs.length = (getJailedValidatorUpdates k ctx).length ∧
      (∀ (i : Nat) (val : ValidatorUpdate), (getJailedValidatorUpdates k ctx)[i]? = some val →
        ∃ v, vs[i]? = some v ∧
          resolve k (stopAll k (setJailedValidatorUpdates k ctx []).world (vs.take i)) val
            = some v) ∧
      (∃ tail, ctx'.calls = ctx.calls ++ vs.map Call.stopProducingBlocks ++ tail ∧
        ∀ v, Call.stopProducingBlocks v ∉ tail) ∧
      getJailedValidatorUpdates k ctx' = [] := by
  obtain ⟨vs, hres, hcalls⟩ := ValidatorUpdates_ok_calls k ctx ctx' r hok
  refine ⟨vs, hres, resolveAll_length k _ _ _ hres, resolveAll_getElem k _ _ _ hres, ?_, ?_⟩
  · rcases hcalls with h | ⟨U, h⟩
    · exact ⟨_, h, by simp⟩
    · exact ⟨_, h, by simp⟩
  · show (k.cdc.UnmarshalBinaryLengthPrefixed (ctx'.Get jailedValidatorUpdatesKey) []).1 = []
    rw [ValidatorUpdates_ok_Get_jailed k ctx ctx' r hown hok]
    exact hcdc

/-- An instance of `ValidatorUpdates_drains_jailed`: a promoting retrieval with validators 2
and 0 pending stops 2 and then 0, though the returned sequence is the promoted committee. -/
theorem ValidatorUpdates_drains_jailed_witness :
    ∃ ctx', ValidatorUpdates (demoKeeper true)
        (demoCtx false true [⟨demoPk 1, 10⟩] [⟨demoPk 2, 0⟩, ⟨demoPk 0, 0⟩])
        = Outcome.ok [⟨demoPk 1, 10⟩] ctx' ∧
      ctx'.calls = [Call.stopProducingBlocks 2, Call.stopProducingBlocks 0,
        Call.ConsensusFromDKGUpdates [⟨demoPk 1, 10⟩], Call.RemoveMatureQueueItems] ∧
      getJailedValidatorUpdates (demoKeeper true) ctx' = [] :=
  ⟨_, rfl, rfl,
    (ValidatorUpdates_drains_jailed (demoKeeper true)
      (demoCtx false true [⟨demoPk 1, 10⟩] [⟨demoPk 2, 0⟩, ⟨demoPk 0, 0⟩]) _
      [⟨demoPk 1, 10⟩] (demoKeeper_Preserves true _) specCodec_RoundTripsEmpty
      rfl).choose_spec.2.2.2.2⟩

/-- Claim C12: absence is not an error, for a codec that leaves the empty target empty on
the `nil` slice. On a store where none of the four keys is present, `DKGValidatorUpdates`
returns the empty sequence and changes nothing, and `ValidatorUpdates` returns the empty
sequence, its only call being the queue drain. When the promote flag is set, the committee
payload key is absent and the jailed entries resolve, `ValidatorUpdates` returns the
promotion of the empty sequence; an absent jailed key is a jailed sequence that resolves,
with nothing to stop. The collaborators are assumed not to write the four keys. -/
theorem absence_is_not_an_error (k : Keeper E P V) (ctx : Ctx E V) (vs : List V)
    (hnil : k.cdc.KeepsEmptyOnNil) (hown : k.KeysOwned) :
    ((∀ key ∈ coreKeys, ctx.Get key = none) →
      DKGValidatorUpdates k ctx = ([], ctx) ∧
      ValidatorUpdates k ctx = Outcome.ok []
        ⟨k.RemoveMatureQueueItems (setJailedValidatorUpdates k ctx []).world,
          ctx.calls ++ [Call.RemoveMatureQueueItems]⟩) ∧
    (flagSet ctx computeValidatorUpdateKey = true → ctx.Get validatorUpdatesKey = none →
      resolveAll k (setJailedValidatorUpdates k ctx []).world
        (getJailedValidatorUpdates k ctx) = some vs →
      ∃ ctx', ValidatorUpdates k ctx =
          Outcome.ok
            (k.ConsensusFromDKGUpdates
              ((stopAll k (setJailedValidatorUpdates k ctx []).world vs).Set
                computeValidatorUpdateKey []) []).1 ctx' ∧
        ctx'.calls = ctx.calls ++ vs.map Call.stopProducingBlocks ++
          [Call.ConsensusFromDKGUpdates [], Call.RemoveMatureQueueItems]) ∧
    (ctx.Get jailedValidatorUpdatesKey = none →
      getJailedValidatorUpdates k ctx = [] ∧
      resolveAll k (setJailedValidatorUpdates k ctx []).world
        (getJailedValidatorUpdates k ctx) = some []) := by
  have hcv := hown _ compute_mem_coreKeys
  have hup := hown _ updates_mem_coreKeys
  have hjailed : ctx.Get jailedValidatorUpdatesKey = none →
      getJailedValidatorUpdates k ctx = [] := by
    intro h
    show (k.cdc.UnmarshalBinaryLengthPrefixed (ctx.Get jailedValidatorUpdatesKey) []).1 = []
    rw [h]
    exact hnil
  refine ⟨?_, ?_, ?_⟩
  · intro habs
    have hdkg : len (ctx.Get computeDKGValidatorUpdateKey) = 0 := by
      rw [habs _ computeDKG_mem_coreKeys]
      rfl
    have hflag : flagSet ctx computeValidatorUpdateKey = false := by
      rw [flagSet_eq_false_iff, habs _ compute_mem_coreKeys]
      rfl
    have hj := hjailed (habs _ jailed_mem_coreKeys)
    have hres : resolveAll k (setJailedValidatorUpdates k ctx []).world
        (getJailedValidatorUpdates k ctx) = some [] := by
      rw [hj]
      rfl
    refine ⟨by simp [DKGValidatorUpdates, hdkg], ?_⟩
    rw [ValidatorUpdates_ok_unflagged k ctx [] hcv.stop hflag hres, hj]
    simp [stopAll]
  · intro hflag hpay hres
    have hpay' := stopAll_jailedWorld_store k ctx vs validatorUpdatesKey hup.stop
      (Ne.symm jailed_ne_updates)
    have hU : (k.cdc.UnmarshalBinaryLengthPrefixed
        ((stopAll k (setJailedValidatorUpdates k ctx []).world vs).store
          validatorUpdatesKey) []).1 = [] := by
      rw [hpay', hpay]
      exact hnil
    have hvu := ValidatorUpdates_ok_flagged k ctx vs hcv.stop hflag hres
    rw [hU] at hvu
    exact ⟨_, hvu, rfl⟩
  · intro h
    refine ⟨hjailed h, ?_⟩
    rw [hjailed h]
    rfl

/-- An instance of `absence_is_not_an_error`: the empty store, and the store that holds
only the promote flag. -/
theorem absence_is_not_an_error_witness :
    (DKGValidatorUpdates (demoKeeper true) emptyCtx = ([], emptyCtx) ∧
      ValidatorUpdates (demoKeeper true) emptyCtx = Outcome.ok []
        ⟨(demoKeeper true).RemoveMatureQueueItems
          (setJailedValidatorUpdates (demoKeeper true) emptyCtx []).world,
          emptyCtx.calls ++ [Call.RemoveMatureQueueItems]⟩) ∧
    (ValidatorUpdates (demoKeeper true) (emptyCtx.Set computeValidatorUpdateKey [0])).returned
      = some [] :=
  ⟨(absence_is_not_an_error (demoKeeper true) emptyCtx [] rfl (demoKeeper_KeysOwned true)).1
      (fun _ _ => rfl),
    rfl⟩

/-! ## Payloads through the store, and the block sequence -/

/-- Reading undoes the writing of one unsigned varint, whatever follows it. -/
theorem getUvarint_putUvarintAux :
    ∀ (fuel n : Nat) (rest : Bytes), n ≤ fuel →
      getUvarint (putUvarintAux fuel n ++ rest) = some (n, rest) := by
  intro fuel
  induction fuel with
  | zero =>
    intro n rest h
    have hn : n = 0 := by omega
    subst hn
    simp [putUvarintAux, getUvarint]
  | succ fuel ih =>
    intro n rest h
    unfold putUvarintAux
    by_cases hlt : n < 128
    · simp [hlt, getUvarint]
    · rw [if_neg hlt]
      have hrec := ih (n / 128) rest (by omega)
      have hb : ¬ (n % 128 + 128 < 128) := by omega
      have hval : n % 128 + 128 - 128 + 128 * (n / 128) = n := by omega
      show getUvarint ((n % 128 + 128) :: (putUvarintAux fuel (n / 128) ++ rest))
        = some (n, rest)
      rw [getUvarint, if_neg hb, hrec]
      simp only [hval]

theorem getUvarint_putUvarint (n : Nat) (rest : Bytes) :
    getUvarint (putUvarint n ++ rest) = some (n, rest) :=
  getUvarint_putUvarintAux n n rest (Nat.le_refl n)

/-- Reading undoes the writing of a sequence of unsigned varints. -/
theorem getUvarints_flatten (ns : List Nat) (rest : Bytes) :
    getUvarints ns.length ((ns.map putUvarint).flatten ++ rest) = some (ns, rest) := by
  induction ns with
  | nil => rfl
  | cons n ns ih =>
    simp only [List.length_cons, List.map_cons, List.flatten_cons, List.append_assoc,
      getUvarints, getUvarint_putUvarint, ih]

theorem getString_putString (t : String) (rest : Bytes) :
    getString (putString t ++ rest) = some (t, rest) := by
  have hlen : t.toList.length = (t.toList.map Char.toNat).length := by simp
  have hchars : String.mk (((t.toList.map Char.toNat)).map Char.ofNat) = t := by
    rw [List.map_map]
    have : (Char.ofNat ∘ Char.toNat) = id := by
      funext c
      simp [Char.ofNat_toNat]
    rw [this, List.map_id]
    cases t
    rfl
  unfold getString putString
  rw [List.append_assoc, getUvarint_putUvarint]
  simp only
  rw [hlen, getUvarints_flatten]
  simp only [hchars]

theorem getBytes_putBytes (d rest : Bytes) :
    getBytes (putBytes d ++ rest) = some (d, rest) := by
  unfold getBytes putBytes
  rw [List.append_assoc, getUvarint_putUvarint]
  simp

theorem getInt_putInt (p : Int) (rest : Bytes) :
    getInt (putInt p ++ rest) = some (p, rest) := by
  have hpow : (if (if p < 0 then 1 else 0 : Nat) = 1 then -(p.natAbs : Int)
      else (p.natAbs : Int)) = p := by
    by_cases h : p < 0
    · rw [if_pos h, if_pos rfl, Int.ofNat_natAbs_of_nonpos (le_of_lt h), neg_neg]
    · rw [if_neg h, if_neg (by decide), Int.natAbs_of_nonneg (not_lt.1 h)]
  unfold getInt putInt
  simp only [List.cons_append, getUvarint_putUvarint, hpow]

/-- Decoding undoes the encoding of one update, whatever follows it. -/
theorem decodeUpdate_encodeUpdate (u : ValidatorUpdate) (rest : Bytes) :
    decodeUpdate (encodeUpdate u ++ rest) = some (u, rest) := by
  unfold decodeUpdate encodeUpdate
  simp only [List.append_assoc, getString_putString, getBytes_putBytes, getInt_putInt]

/-- Decoding undoes the encoding of a sequence of updates. -/
theorem decodeUpdates_encode (us : List ValidatorUpdate) :
    decodeUpdates us.length (us.map encodeUpdate).flatten = some us := by
  induction us with
  | nil => rfl
  | cons u rest ih =>
    simp only [List.length_cons, List.map_cons, List.flatten_cons, decodeUpdates]
    rw [decodeUpdate_encodeUpdate]
    simp only [ih]

/-- The codec modelled from the specification round-trips every sequence: deserialization
of the serialization of `x` is `x`. -/
theorem specCodec_RoundTrips (x : List ValidatorUpdate) : specCodec.RoundTrips x := by
  unfold Codec.RoundTrips specCodec
  simp only
  have hb := getBytes_putBytes (putUvarint x.length ++ (x.map encodeUpdate).flatten) []
  rw [List.append_nil] at hb
  rw [hb]
  simp only
  have h := getUvarint_putUvarint x.length (x.map encodeUpdate).flatten
  rw [h]
  simp only [decodeUpdates_encode]

/-- Get after set returns the sequence that was set, for a sequence the codec of the keeper
round-trips. -/
theorem get_set_of_RoundTrips (k : Keeper E P V) (ctx : Ctx E V) (x : List ValidatorUpdate)
    (hrt : k.cdc.RoundTrips x) :
    (getDKGValidatorUpdates k (setDKGValidatorUpdates k ctx x)).1 = x ∧
    getJailedValidatorUpdates k (setJailedValidatorUpdates k ctx x) = x := by
  constructor
  · show (k.cdc.UnmarshalBinaryLengthPrefixed
      ((ctx.Set validatorUpdatesKey _).Get validatorUpdatesKey) []).1 = x
    rw [Ctx.Get_Set_same]
    exact hrt
  · show (k.cdc.UnmarshalBinaryLengthPrefixed
      ((ctx.Set jailedValidatorUpdatesKey _).Get jailedValidatorUpdatesKey) []).1 = x
    rw [Ctx.Get_Set_same]
    exact hrt

/-- Claim C13: with the codec modelled from the specification, for every sequence `x` of
updates, the empty sequence included, `getDKGValidatorUpdates` after
`setDKGValidatorUpdates x` returns `x` and `getJailedValidatorUpdates` after
`setJailedValidatorUpdates x` returns `x`, whatever the store held before:
deserialization of the serialization of `x` is `x`. -/
theorem payload_round_trip (k : Keeper E P V) (ctx : Ctx E V) (x : List ValidatorUpdate)
    (hcdc : k.cdc = specCodec) :
    (getDKGValidatorUpdates k (setDKGValidatorUpdates k ctx x)).1 = x ∧
    getJailedValidatorUpdates k (setJailedValidatorUpdates k ctx x) = x ∧
    (k.cdc.UnmarshalBinaryLengthPrefixed
      (some (k.cdc.MustMarshalBinaryLengthPrefixed x)) []).1 = x := by
  have hrt : k.cdc.RoundTrips x := by
    rw [hcdc]
    exact specCodec_RoundTrips x
  exact ⟨(get_set_of_RoundTrips k ctx x hrt).1, (get_set_of_RoundTrips k ctx x hrt).2, hrt⟩

/-- An instance of `payload_round_trip`: the empty sequence and the committee
`[(pkA,10),(pkB,-3)]`, over a store that held other payloads. -/
theorem payload_round_trip_witness :
    (demoKeeper true).cdc = specCodec ∧
    ((getDKGValidatorUpdates (demoKeeper true)
        (setDKGValidatorUpdates (demoKeeper true) (demoCtx true true [⟨demoPk 2, 7⟩] []) [])).1
        = [] ∧
      getJailedValidatorUpdates (demoKeeper true)
        (setJailedValidatorUpdates (demoKeeper true) (demoCtx true true [⟨demoPk 2, 7⟩] []) [])
        = []) ∧
    ((getDKGValidatorUpdates (demoKeeper true)
        (setDKGValidatorUpdates (demoKeeper true) emptyCtx
          [⟨demoPk 0, 10⟩, ⟨demoPk 1, -3⟩])).1 = [⟨demoPk 0, 10⟩, ⟨demoPk 1, -3⟩] ∧
      getJailedValidatorUpdates (demoKeeper true)
        (setJailedValidatorUpdates (demoKeeper true) emptyCtx
          [⟨demoPk 0, 10⟩, ⟨demoPk 1, -3⟩]) = [⟨demoPk 0, 10⟩, ⟨demoPk 1, -3⟩]) :=
  ⟨rfl,
    ⟨(payload_round_trip (demoKeeper true) (demoCtx true true [⟨demoPk 2, 7⟩] []) [] rfl).1,
      (payload_round_trip (demoKeeper true) (demoCtx true true [⟨demoPk 2, 7⟩] []) []
        rfl).2.1⟩,
    ⟨(payload_round_trip (demoKeeper true) emptyCtx [⟨demoPk 0, 10⟩, ⟨demoPk 1, -3⟩] rfl).1,
      (payload_round_trip (demoKeeper true) emptyCtx [⟨demoPk 0, 10⟩, ⟨demoPk 1, -3⟩]
        rfl).2.1⟩⟩

/-- After `DKGValidatorUpdates` the compute-DKG flag is clear, provided committee selection
does not write the flag key. -/
theorem DKGValidatorUpdates_flag_clear (k : Keeper E P V) (ctx : Ctx E V)
    (hp : k.Preserves computeDKGValidatorUpdateKey) :
    flagSet (DKGValidatorUpdates k ctx).2 computeDKGValidatorUpdateKey = false := by
  rw [flagSet_eq_false_iff]
  by_cases hlen : len (ctx.Get computeDKGValidatorUpdateKey) = 0
  · have hdef : DKGValidatorUpdates k ctx = ([], ctx) := by simp [DKGValidatorUpdates, hlen]
    rw [hdef]
    exact hlen
  · have hdef : (DKGValidatorUpdates k ctx).2 =
        setDKGValidatorUpdates k
          ((ctx.Set computeDKGValidatorUpdateKey []).invoke Call.ApplyAndReturnValidatorSetUpdates
            (fun w => (k.ApplyAndReturnValidatorSetUpdates w).2))
          (k.ApplyAndReturnValidatorSetUpdates (ctx.Set computeDKGValidatorUpdateKey []).world).1
        := by
      simp [DKGValidatorUpdates, hlen]
    rw [hdef]
    show len ((Ctx.Set _ validatorUpdatesKey _).Get computeDKGValidatorUpdateKey) = 0
    rw [Ctx.Get_Set_other _ _ _ _ (Ne.symm updates_ne_computeDKG), Ctx.Get_invoke, hp.apply]
    show len ((ctx.Set computeDKGValidatorUpdateKey []).Get computeDKGValidatorUpdateKey) = 0
    rw [Ctx.Get_Set_same]
    rfl

/-- The calls of `DKGValidatorUpdates`: none, or the one call of committee selection. -/
theorem DKGValidatorUpdates_calls (k : Keeper E P V) (ctx : Ctx E V) :
    (DKGValidatorUpdates k ctx).2.calls =
      ctx.calls ++ (if flagSet ctx computeDKGValidatorUpdateKey then
        [Call.ApplyAndReturnValidatorSetUpdates] else []) := by
  by_cases hlen : len (ctx.Get computeDKGValidatorUpdateKey) = 0
  · have hflag : flagSet ctx computeDKGValidatorUpdateKey = false :=
      (flagSet_eq_false_iff _ _).2 hlen
    simp [DKGValidatorUpdates, hlen, hflag]
  · have hflag : flagSet ctx computeDKGValidatorUpdateKey = true :=
      (flagSet_eq_true_iff _ _).2 hlen
    simp [DKGValidatorUpdates, hlen, hflag, setDKGValidatorUpdates, Ctx.Set, Ctx.invoke]

/-- Claim C14: whatever the starting store, the header and the delay setting, when the
block sequence `CheckValidatorUpdates`; `DKGValidatorUpdates`; `ValidatorUpdates` returns,
the compute-DKG flag and the promote flag are clear and the jailed payload deserializes to
the empty sequence. The collaborators are assumed not to write the four keys, and the codec
to round-trip the empty sequence. -/
theorem block_consumes_flags (k : Keeper E P V) (ctx ctx' : Ctx E V) (header : Header)
    (r : List ValidatorUpdate) (hown : k.KeysOwned) (hcdc : k.cdc.RoundTripsEmpty)
    (hok : ValidatorUpdates k (DKGValidatorUpdates k (CheckValidatorUpdates k ctx header)).2
      = Outcome.ok r ctx') :
    flagSet ctx' computeDKGValidatorUpdateKey = false ∧
    flagSet ctx' computeValidatorUpdateKey = false ∧
    getJailedValidatorUpdates k ctx' = [] := by
  have hdkg := hown _ computeDKG_mem_coreKeys
  refine ⟨?_, ValidatorUpdates_ok_flag_clear k _ ctx' r (hown _ compute_mem_coreKeys) hok, ?_⟩
  · have hframe := ValidatorUpdates_Get_other k
      (DKGValidatorUpdates k (CheckValidatorUpdates k ctx header)).2
      computeDKGValidatorUpdateKey hdkg computeDKG_ne_compute (Ne.symm jailed_ne_computeDKG)
    rw [hok] at hframe
    have hclear := DKGValidatorUpdates_flag_clear k (CheckValidatorUpdates k ctx header) hdkg
    rw [flagSet_eq_false_iff] at hclear ⊢
    have hframe' : ctx'.Get computeDKGValidatorUpdateKey =
        (DKGValidatorUpdates k (CheckValidatorUpdates k ctx header)).2.Get
          computeDKGValidatorUpdateKey := hframe
    rw [hframe']
    exact hclear
  · show (k.cdc.UnmarshalBinaryLengthPrefixed (ctx'.Get jailedValidatorUpdatesKey) []).1 = []
    rw [ValidatorUpdates_ok_Get_jailed k _ ctx' r (hown _ jailed_mem_coreKeys) hok]
    exact hcdc

/-- An instance of `block_consumes_flags`: an eager block over a store with both flags
already set, an old committee payload and validator 2 pending. -/
theorem block_consumes_flags_witness :
    ∃ ctx', ValidatorUpdates (demoKeeper false)
        (DKGValidatorUpdates (demoKeeper false)
          (CheckValidatorUpdates (demoKeeper false)
            (demoCtx true true [⟨demoPk 2, 7⟩] [⟨demoPk 2, 0⟩]) ⟨5, ⟨1000⟩⟩)).2
        = Outcome.ok [⟨demoPk 0, 10⟩] ctx' ∧
      flagSet ctx' computeDKGValidatorUpdateKey = false ∧
      flagSet ctx' computeValidatorUpdateKey = false ∧
      getJailedValidatorUpdates (demoKeeper false) ctx' = [] :=
  ⟨_, rfl,
    block_consumes_flags (demoKeeper false) (demoCtx true true [⟨demoPk 2, 7⟩] [⟨demoPk 2, 0⟩])
      _ ⟨5, ⟨1000⟩⟩ [⟨demoPk 0, 10⟩] (demoKeeper_KeysOwned false) specCodec_RoundTripsEmpty rfl⟩

/-- Claim C15: every `ValidatorUpdates` that returns has made exactly one
`RemoveMatureQueueItems` call, as its last call, after the `stopProducingBlocks` calls and
the promotion if there is one, whatever the promote flag and the jailed list;
`DKGValidatorUpdates` makes no such call; so in the sequence `DKGValidatorUpdates`;
`ValidatorUpdates` the drain is the last call and committee selection, when it runs,
comes before it. -/
theorem queue_drained_last (k : Keeper E P V) (ctx : Ctx E V) :
    (∀ r ctx', ValidatorUpdates k ctx = Outcome.ok r ctx' →
      ∃ pre, ctx'.calls = ctx.calls ++ pre ++ [Call.RemoveMatureQueueItems] ∧
        Call.RemoveMatureQueueItems ∉ pre) ∧
    (∃ l, (DKGValidatorUpdates k ctx).2.calls = ctx.calls ++ l ∧
      Call.RemoveMatureQueueItems ∉ l) ∧
    (∀ r ctx', ValidatorUpdates k (DKGValidatorUpdates k ctx).2 = Outcome.ok r ctx' →
      ∃ pre, ctx'.calls = ctx.calls ++ pre ++ [Call.RemoveMatureQueueItems] ∧
        Call.RemoveMatureQueueItems ∉ pre ∧
        (flagSet ctx computeDKGValidatorUpdateKey = true →
          Call.ApplyAndReturnValidatorSetUpdates ∈ pre)) := by
  have hvu : ∀ (c : Ctx E V) r ctx', ValidatorUpdates k c = Outcome.ok r ctx' →
      ∃ pre, ctx'.calls = c.calls ++ pre ++ [Call.RemoveMatureQueueItems] ∧
        Call.RemoveMatureQueueItems ∉ pre := by
    intro c r ctx' hok
    obtain ⟨vs, -, h | ⟨U, h⟩⟩ := ValidatorUpdates_ok_calls k c ctx' r hok
    · exact ⟨vs.map Call.stopProducingBlocks, h, by simp⟩
    · exact ⟨vs.map Call.stopProducingBlocks ++ [Call.ConsensusFromDKGUpdates U],
        by simp [h], by simp⟩
  refine ⟨hvu ctx, ⟨_, DKGValidatorUpdates_calls k ctx, ?_⟩, ?_⟩
  · split <;> simp
  · intro r ctx' hok
    obtain ⟨pre, hcalls, hpre⟩ := hvu _ r ctx' hok
    rw [DKGValidatorUpdates_calls] at hcalls
    refine ⟨(if flagSet ctx computeDKGValidatorUpdateKey then
      [Call.ApplyAndReturnValidatorSetUpdates] else []) ++ pre, by simp [hcalls], ?_, ?_⟩
    · split <;> simp [hpre]
    · intro hflag
      simp [hflag]

/-- An instance of `queue_drained_last`: a block with both flags set and validator 2
pending; committee selection, the stop, the promotion, and last the drain. -/
theorem queue_drained_last_witness :
    ∃ ctx', ValidatorUpdates (demoKeeper true)
        (DKGValidatorUpdates (demoKeeper true)
          (demoCtx true true [⟨demoPk 2, 7⟩] [⟨demoPk 2, 0⟩])).2
        = Outcome.ok [⟨demoPk 0, 10⟩] ctx' ∧
      ctx'.calls = [Call.ApplyAndReturnValidatorSetUpdates, Call.stopProducingBlocks 2,
        Call.ConsensusFromDKGUpdates [⟨demoPk 0, 10⟩, ⟨demoPk 1, 0⟩],
        Call.RemoveMatureQueueItems] ∧
      ∃ pre, ctx'.calls = (demoCtx true true [⟨demoPk 2, 7⟩] [⟨demoPk 2, 0⟩]).calls ++ pre ++
          [Call.RemoveMatureQueueItems] ∧
        Call.RemoveMatureQueueItems ∉ pre :=
  ⟨_, rfl, rfl,
    have h := (queue_drained_last (demoKeeper true)
      (demoCtx true true [⟨demoPk 2, 7⟩] [⟨demoPk 2, 0⟩])).2.2 _ _ rfl
    ⟨h.choose, h.choose_spec.1, h.choose_spec.2.1⟩⟩

/-- Claim C16: in eager mode, when the jailed entries resolve, the block sequence
`CheckValidatorUpdates`; `DKGValidatorUpdates`; `ValidatorUpdates` makes `ValidatorUpdates`
return the promotion of `U`, the sequence that `DKGValidatorUpdates` returned in the same
block, which is the output of the committee selection it ran; the payload stored before
the block plays no part. The collaborators are assumed not to write the four keys, and the
codec to round-trip `U`. -/
theorem eager_promotes_same_block (k : Keeper E P V) (ctx c1 c2 : Ctx E V) (header : Header)
    (U : List ValidatorUpdate) (vs : List V)
    (hdelay : k.delayValidatorUpdates = false) (hown : k.KeysOwned)
    (hc1 : CheckValidatorUpdates k ctx header = c1)
    (hdkg : DKGValidatorUpdates k c1 = (U, c2))
    (hrt : k.cdc.RoundTrips U)
    (hres : resolveAll k (setJailedValidatorUpdates k c2 []).world
      (getJailedValidatorUpdates k c2) = some vs) :
    U = (k.ApplyAndReturnValidatorSetUpdates (c1.Set computeDKGValidatorUpdateKey []).world).1 ∧
    ∃ c3, ValidatorUpdates k c2 =
        Outcome.ok
          (k.ConsensusFromDKGUpdates
            ((stopAll k (setJailedValidatorUpdates k c2 []).world vs).Set
              computeValidatorUpdateKey []) U).1 c3 ∧
      c3.calls = c2.calls ++ vs.map Call.stopProducingBlocks ++
        [Call.ConsensusFromDKGUpdates U, Call.RemoveMatureQueueItems] := by
  have hcv := hown _ compute_mem_coreKeys
  have hup := hown _ updates_mem_coreKeys
  have hflags : c1.Get computeDKGValidatorUpdateKey = some [0] ∧
      c1.Get computeValidatorUpdateKey = some [0] := by
    have h : CheckValidatorUpdates k ctx header =
        (ctx.Set computeDKGValidatorUpdateKey [0]).Set computeValidatorUpdateKey [0] := by
      simp [CheckValidatorUpdates, hdelay]
    rw [← hc1, h]
    simp [Ctx.Get_Set, computeDKG_ne_compute]
  have hlen : ¬ len (c1.Get computeDKGValidatorUpdateKey) = 0 := by
    rw [hflags.1]
    decide
  have hdef : DKGValidatorUpdates k c1 =
      ((k.ApplyAndReturnValidatorSetUpdates (c1.Set computeDKGValidatorUpdateKey []).world).1,
        setDKGValidatorUpdates k
          ((c1.Set computeDKGValidatorUpdateKey []).invoke Call.ApplyAndReturnValidatorSetUpdates
            (fun w => (k.ApplyAndReturnValidatorSetUpdates w).2))
          (k.ApplyAndReturnValidatorSetUpdates
            (c1.Set computeDKGValidatorUpdateKey []).world).1) := by
    simp [DKGValidatorUpdates, hlen]
  rw [hdef] at hdkg
  injection hdkg with hU hc2
  have hpay : c2.Get validatorUpdatesKey = some (k.cdc.MustMarshalBinaryLengthPrefixed U) := by
    rw [← hc2, hU]
    exact Ctx.Get_Set_same _ _ _
  have hflag2 : flagSet c2 computeValidatorUpdateKey = true := by
    rw [flagSet_eq_true_iff, ← hc2]
    show ¬ len ((Ctx.Set _ validatorUpdatesKey _).Get computeValidatorUpdateKey) = 0
    rw [Ctx.Get_Set_other _ _ _ _ (Ne.symm updates_ne_compute), Ctx.Get_invoke, hcv.apply]
    show ¬ len ((c1.Set computeDKGValidatorUpdateKey []).Get computeValidatorUpdateKey) = 0
    rw [Ctx.Get_Set_other _ _ _ _ (Ne.symm computeDKG_ne_compute), hflags.2]
    decide
  have hread : (k.cdc.UnmarshalBinaryLengthPrefixed
      ((stopAll k (setJailedValidatorUpdates k c2 []).world vs).store
        validatorUpdatesKey) []).1 = U := by
    rw [stopAll_jailedWorld_store k c2 vs validatorUpdatesKey hup.stop
      (Ne.symm jailed_ne_updates), hpay]
    exact hrt
  have hvu := ValidatorUpdates_ok_flagged k c2 vs hcv.stop hflag2 hres
  rw [hread] at hvu
  exact ⟨hU.symm, _, hvu, rfl⟩

/-- An instance of `eager_promotes_same_block`: an eager block over a store that held the
old payload `[(pkC,7)]`; the committee `[(pkA,10),(pkB,0)]` selected in the block is the one
promoted. -/
theorem eager_promotes_same_block_witness :
    (DKGValidatorUpdates (demoKeeper false)
      (CheckValidatorUpdates (demoKeeper false)
        (demoCtx false false [⟨demoPk 2, 7⟩] [⟨demoPk 2, 0⟩]) ⟨5, ⟨1000⟩⟩)).1
      = [⟨demoPk 0, 10⟩, ⟨demoPk 1, 0⟩] ∧
    (ValidatorUpdates (demoKeeper false)
      (DKGValidatorUpdates (demoKeeper false)
        (CheckValidatorUpdates (demoKeeper false)
          (demoCtx false false [⟨demoPk 2, 7⟩] [⟨demoPk 2, 0⟩]) ⟨5, ⟨1000⟩⟩)).2).returned
      = some [⟨demoPk 0, 10⟩] :=
  have h := eager_promotes_same_block (demoKeeper false)
    (demoCtx false false [⟨demoPk 2, 7⟩] [⟨demoPk 2, 0⟩]) _ _ ⟨5, ⟨1000⟩⟩
    [⟨demoPk 0, 10⟩, ⟨demoPk 1, 0⟩] [2] rfl (demoKeeper_KeysOwned false) rfl rfl
    (by unfold Codec.RoundTrips; rfl) rfl
  ⟨rfl, congrArg Outcome.returned h.2.choose_spec.1⟩

/-! ## The height gate, again: what it raises and what it leaves -/

/-- The effect of `CheckValidatorUpdates` is to raise the flags whose condition in the
source holds. -/
theorem CheckValidatorUpdates_eq_raiseFlags (k : Keeper E P V) (ctx : Ctx E V)
    (header : Header) :
    CheckValidatorUpdates k ctx header =
      raiseFlags
        ⟨!k.delayValidatorUpdates || header.Height == subInt64 header.Entropy.NextAeonStart 1,
          !k.delayValidatorUpdates || header.Height == subInt64 header.Entropy.NextAeonStart 2⟩
        ctx := rfl

theorem raiseFlags_Get_computeDKG (g : GateFlags) (ctx : Ctx E V) :
    (raiseFlags g ctx).Get computeDKGValidatorUpdateKey =
      if g.raiseComputeDKG then some [0] else ctx.Get computeDKGValidatorUpdateKey := by
  have hne := computeDKG_ne_compute
  unfold raiseFlags
  split <;> split <;> simp_all [Ctx.Get_Set]

theorem raiseFlags_Get_compute (g : GateFlags) (ctx : Ctx E V) :
    (raiseFlags g ctx).Get computeValidatorUpdateKey =
      if g.raisePromote then some [0] else ctx.Get computeValidatorUpdateKey := by
  have hne := Ne.symm computeDKG_ne_compute
  unfold raiseFlags
  split <;> split <;> simp_all [Ctx.Get_Set]

theorem raiseFlags_Get_other (g : GateFlags) (ctx : Ctx E V) (key : Bytes)
    (h1 : key ≠ computeDKGValidatorUpdateKey) (h2 : key ≠ computeValidatorUpdateKey) :
    (raiseFlags g ctx).Get key = ctx.Get key := by
  unfold raiseFlags
  split <;> split <;> simp_all [Ctx.Get_Set]

theorem raiseFlags_calls_ext (g : GateFlags) (ctx : Ctx E V) :
    (raiseFlags g ctx).calls = ctx.calls ∧ (raiseFlags g ctx).world.ext = ctx.world.ext := by
  unfold raiseFlags
  split <;> split <;> exact ⟨rfl, rfl⟩

/-- The wrapped differences `a - 1` and `a - 2` are never equal. -/
theorem subInt64_one_ne_two (a : Int) : subInt64 a 1 ≠ subInt64 a 2 := by
  unfold subInt64 wrapInt64
  norm_num
  omega

/-- Claim C18: `CheckValidatorUpdates` only raises flags. A flag that was set is set
afterwards; each flag key holds the marker `[0]` when its condition in the source holds and
its previous bytes otherwise; every other key, the committee payload key and the jailed
payload key among them, keeps its value; and nothing but the store changes. -/
theorem CheckValidatorUpdates_only_raises (k : Keeper E P V) (ctx : Ctx E V)
    (header : Header) :
    (∀ key, flagSet ctx key = true → flagSet (CheckValidatorUpdates k ctx header) key = true) ∧
    ((CheckValidatorUpdates k ctx header).Get computeDKGValidatorUpdateKey =
      if !k.delayValidatorUpdates || header.Height == subInt64 header.Entropy.NextAeonStart 1
      then some [0] else ctx.Get computeDKGValidatorUpdateKey) ∧
    ((CheckValidatorUpdates k ctx header).Get computeValidatorUpdateKey =
      if !k.delayValidatorUpdates || header.Height == subInt64 header.Entropy.NextAeonStart 2
      then some [0] else ctx.Get computeValidatorUpdateKey) ∧
    (∀ key, key ≠ computeDKGValidatorUpdateKey → key ≠ computeValidatorUpdateKey →
      (CheckValidatorUpdates k ctx header).Get key = ctx.Get key) ∧
    (CheckValidatorUpdates k ctx header).Get validatorUpdatesKey = ctx.Get validatorUpdatesKey ∧
    (CheckValidatorUpdates k ctx header).Get jailedValidatorUpdatesKey
      = ctx.Get jailedValidatorUpdatesKey ∧
    (CheckValidatorUpdates k ctx header).calls = ctx.calls ∧
    (CheckValidatorUpdates k ctx header).world.ext = ctx.world.ext := by
  rw [CheckValidatorUpdates_eq_raiseFlags]
  refine ⟨?_, raiseFlags_Get_computeDKG _ ctx, raiseFlags_Get_compute _ ctx,
    fun key h1 h2 => raiseFlags_Get_other _ ctx key h1 h2,
    raiseFlags_Get_other _ ctx _ updates_ne_computeDKG updates_ne_compute,
    raiseFlags_Get_other _ ctx _ jailed_ne_computeDKG jailed_ne_compute,
    (raiseFlags_calls_ext _ ctx).1, (raiseFlags_calls_ext _ ctx).2⟩
  intro key hset
  rw [flagSet_eq_true_iff] at hset ⊢
  by_cases h1 : key = computeDKGValidatorUpdateKey
  · subst h1
    rw [raiseFlags_Get_computeDKG]
    split
    · decide
    · exact hset
  · by_cases h2 : key = computeValidatorUpdateKey
    · subst h2
      rw [raiseFlags_Get_compute]
      split
      · decide
      · exact hset
    · rw [raiseFlags_Get_other _ ctx key h1 h2]
      exact hset

/-- Claim C19: in delayed mode, with `nextAeonStart` an `int64` value that is at least
`MinInt64 + 2`, the comparisons of `CheckValidatorUpdates` with the wrapped differences
agree, for every height, with the comparisons `height = nextAeonStart - 1` and
`height = nextAeonStart - 2` over the unbounded integers, and `CheckValidatorUpdates` does
what the gate of the specification says; so the two differ only for a `nextAeonStart` below
`MinInt64 + 2`, where the subtraction overflows. -/
theorem gate_agrees_with_unbounded (k : Keeper E P V) (ctx : Ctx E V) (header : Header)
    (hdelay : k.delayValidatorUpdates = true) (ha : IsInt64 header.Entropy.NextAeonStart) :
    (MinInt64 + 2 ≤ header.Entropy.NextAeonStart →
      (header.Height = subInt64 header.Entropy.NextAeonStart 1 ↔
        header.Height = header.Entropy.NextAeonStart - 1) ∧
      (header.Height = subInt64 header.Entropy.NextAeonStart 2 ↔
        header.Height = header.Entropy.NextAeonStart - 2) ∧
      CheckValidatorUpdates k ctx header =
        raiseFlags (evaluateSpec header.Height header.Entropy.NextAeonStart true) ctx) ∧
    (CheckValidatorUpdates k ctx header ≠
        raiseFlags (evaluateSpec header.Height header.Entropy.NextAeonStart true) ctx →
      header.Entropy.NextAeonStart < MinInt64 + 2) := by
  have hagree : MinInt64 + 2 ≤ header.Entropy.NextAeonStart →
      (header.Height = subInt64 header.Entropy.NextAeonStart 1 ↔
        header.Height = header.Entropy.NextAeonStart - 1) ∧
      (header.Height = subInt64 header.Entropy.NextAeonStart 2 ↔
        header.Height = header.Entropy.NextAeonStart - 2) ∧
      CheckValidatorUpdates k ctx header =
        raiseFlags (evaluateSpec header.Height header.Entropy.NextAeonStart true) ctx := by
    intro hlo
    unfold IsInt64 at ha
    have h1 : subInt64 header.Entropy.NextAeonStart 1 = header.Entropy.NextAeonStart - 1 :=
      subInt64_eq _ _ ⟨by omega, by omega⟩
    have h2 : subInt64 header.Entropy.NextAeonStart 2 = header.Entropy.NextAeonStart - 2 :=
      subInt64_eq _ _ ⟨by omega, by omega⟩
    refine ⟨by rw [h1], by rw [h2], ?_⟩
    rw [CheckValidatorUpdates_eq_raiseFlags, h1, h2, hdelay]
    simp [evaluateSpec]
  refine ⟨hagree, ?_⟩
  intro hne
  by_contra hlt
  exact hne (hagree (not_lt.1 hlt)).2.2

/-- An instance of `gate_agrees_with_unbounded`: `nextAeonStart = 1000` at height 999. -/
theorem gate_agrees_with_unbounded_witness :
    CheckValidatorUpdates (demoKeeper true) emptyCtx ⟨999, ⟨1000⟩⟩ =
      raiseFlags (evaluateSpec 999 1000 true) emptyCtx ∧
    evaluateSpec 999 1000 true = ⟨true, false⟩ :=
  ⟨((gate_agrees_with_unbounded (demoKeeper true) emptyCtx ⟨999, ⟨1000⟩⟩ rfl
      (by decide)).1 (by decide)).2.2, by decide⟩

/-- Claim C17: in delayed mode the two conditions of `CheckValidatorUpdates` never hold
together, so at least one of the two flag keys is left as it was. Consequently, in a block
at height `nextAeonStart - 2` (both `int64` values) that starts with the compute-DKG flag
clear, `DKGValidatorUpdates` returns the empty sequence and changes nothing, the committee
payload is the one stored before the block, and, when the jailed entries resolve,
`ValidatorUpdates` returns the promotion of what that payload deserializes to. The
collaborators are assumed not to write the four keys. -/
theorem delayed_never_computes_and_promotes (k : Keeper E P V) (ctx : Ctx E V)
    (header : Header) (hdelay : k.delayValidatorUpdates = true) :
    ¬ (header.Height = subInt64 header.Entropy.NextAeonStart 1 ∧
      header.Height = subInt64 header.Entropy.NextAeonStart 2) ∧
    ((CheckValidatorUpdates k ctx header).Get computeDKGValidatorUpdateKey
        = ctx.Get computeDKGValidatorUpdateKey ∨
      (CheckValidatorUpdates k ctx header).Get computeValidatorUpdateKey
        = ctx.Get computeValidatorUpdateKey) ∧
    (IsInt64 header.Height → IsInt64 header.Entropy.NextAeonStart →
      header.Height = header.Entropy.NextAeonStart - 2 →
      flagSet ctx computeDKGValidatorUpdateKey = false → k.KeysOwned →
      DKGValidatorUpdates k (CheckValidatorUpdates k ctx header)
        = ([], CheckValidatorUpdates k ctx header) ∧
      (CheckValidatorUpdates k ctx header).Get validatorUpdatesKey
        = ctx.Get validatorUpdatesKey ∧
      ∀ vs, resolveAll k
          (setJailedValidatorUpdates k (CheckValidatorUpdates k ctx header) []).world
          (getJailedValidatorUpdates k (CheckValidatorUpdates k ctx header)) = some vs →
        ∃ c3, ValidatorUpdates k
            (DKGValidatorUpdates k (CheckValidatorUpdates k ctx header)).2 =
            Outcome.ok
              (k.ConsensusFromDKGUpdates
                ((stopAll k
                  (setJailedValidatorUpdates k (CheckValidatorUpdates k ctx header) []).world
                  vs).Set computeValidatorUpdateKey [])
                (k.cdc.UnmarshalBinaryLengthPrefixed (ctx.Get validatorUpdatesKey) []).1).1
              c3 ∧
          c3.calls = ctx.calls ++ vs.map Call.stopProducingBlocks ++
            [Call.ConsensusFromDKGUpdates
              (k.cdc.UnmarshalBinaryLengthPrefixed (ctx.Get validatorUpdatesKey) []).1,
              Call.RemoveMatureQueueItems]) := by
  have hne := subInt64_one_ne_two header.Entropy.NextAeonStart
  have hnot : ¬ (header.Height = subInt64 header.Entropy.NextAeonStart 1 ∧
      header.Height = subInt64 header.Entropy.NextAeonStart 2) := by
    rintro ⟨h1, h2⟩
    exact hne (h1.symm.trans h2)
  have hD := raiseFlags_Get_computeDKG
    ⟨!k.delayValidatorUpdates || header.Height == subInt64 header.Entropy.NextAeonStart 1,
      !k.delayValidatorUpdates || header.Height == subInt64 header.Entropy.NextAeonStart 2⟩ ctx
  have hC := raiseFlags_Get_compute
    ⟨!k.delayValidatorUpdates || header.Height == subInt64 header.Entropy.NextAeonStart 1,
      !k.delayValidatorUpdates || header.Height == subInt64 header.Entropy.NextAeonStart 2⟩ ctx
  rw [← CheckValidatorUpdates_eq_raiseFlags] at hD hC
  simp only [hdelay, Bool.not_true, Bool.false_or, beq_iff_eq] at hD hC
  refine ⟨hnot, ?_, ?_⟩
  · by_cases h1 : header.Height = subInt64 header.Entropy.NextAeonStart 1
    · right
      have h2 : ¬ header.Height = subInt64 header.Entropy.NextAeonStart 2 :=
        fun h2 => hnot ⟨h1, h2⟩
      rw [hC, if_neg h2]
    · left
      rw [hD, if_neg h1]
  · intro hh ha hat hclear hown
    have hcv := hown _ compute_mem_coreKeys
    have hup := hown _ updates_mem_coreKeys
    unfold IsInt64 at hh ha
    have h2 : header.Height = subInt64 header.Entropy.NextAeonStart 2 := by
      rw [subInt64_eq _ _ ⟨by omega, by omega⟩]
      exact hat
    have h1 : ¬ header.Height = subInt64 header.Entropy.NextAeonStart 1 :=
      fun h1 => hnot ⟨h1, h2⟩
    rw [if_neg h1] at hD
    rw [if_pos h2] at hC
    have hlen : len ((CheckValidatorUpdates k ctx header).Get computeDKGValidatorUpdateKey) = 0
        := by
      rw [hD]
      exact (flagSet_eq_false_iff _ _).1 hclear
    have hdkg : DKGValidatorUpdates k (CheckValidatorUpdates k ctx header)
        = ([], CheckValidatorUpdates k ctx header) := by
      simp [DKGValidatorUpdates, hlen]
    have hpay : (CheckValidatorUpdates k ctx header).Get validatorUpdatesKey
        = ctx.Get validatorUpdatesKey := by
      rw [CheckValidatorUpdates_eq_raiseFlags]
      exact raiseFlags_Get_other _ ctx _ updates_ne_computeDKG updates_ne_compute
    have hcalls : (CheckValidatorUpdates k ctx header).calls = ctx.calls := by
      rw [CheckValidatorUpdates_eq_raiseFlags]
      exact (raiseFlags_calls_ext _ ctx).1
    refine ⟨hdkg, hpay, ?_⟩
    intro vs hres
    have hflag : flagSet (CheckValidatorUpdates k ctx header) computeValidatorUpdateKey = true
        := by
      rw [flagSet_eq_true_iff, hC]
      decide
    have hvu := ValidatorUpdates_ok_flagged k (CheckValidatorUpdates k ctx header) vs hcv.stop
      hflag hres
    rw [stopAll_jailedWorld_store k (CheckValidatorUpdates k ctx header) vs validatorUpdatesKey
      hup.stop (Ne.symm jailed_ne_updates), hpay, hcalls] at hvu
    rw [hdkg]
    exact ⟨_, hvu, rfl⟩

/-- An instance of `delayed_never_computes_and_promotes`: the block at height 998 with
`nextAeonStart = 1000`, over a store that holds the committee `[(pkA,10),(pkB,0)]`
computed earlier; the block promotes that committee and selects none. -/
theorem delayed_never_computes_and_promotes_witness :
    DKGValidatorUpdates (demoKeeper true)
        (CheckValidatorUpdates (demoKeeper true)
          (demoCtx false false [⟨demoPk 0, 10⟩, ⟨demoPk 1, 0⟩] []) ⟨998, ⟨1000⟩⟩)
      = ([], CheckValidatorUpdates (demoKeeper true)
          (demoCtx false false [⟨demoPk 0, 10⟩, ⟨demoPk 1, 0⟩] []) ⟨998, ⟨1000⟩⟩) ∧
    (ValidatorUpdates (demoKeeper true)
      (DKGValidatorUpdates (demoKeeper true)
        (CheckValidatorUpdates (demoKeeper true)
          (demoCtx false false [⟨demoPk 0, 10⟩, ⟨demoPk 1, 0⟩] []) ⟨998, ⟨1000⟩⟩)).2).returned
      = some [⟨demoPk 0, 10⟩] :=
  have h := (delayed_never_computes_and_promotes (demoKeeper true)
    (demoCtx false false [⟨demoPk 0, 10⟩, ⟨demoPk 1, 0⟩] []) ⟨998, ⟨1000⟩⟩ rfl).2.2
    (by decide) (by decide) (by decide) (by decide) (demoKeeper_KeysOwned true)
  ⟨h.1, congrArg Outcome.returned (h.2.2 [] rfl).choose_spec.1⟩

end DelayUpdates
